import Mathlib

set_option maxHeartbeats 1000000

/-!
Verification of the Liberdus notification service subscription registry
(`src/collectorSubscriber.ts`, class `LiberdusNotificationService`), the
resilient event-stream client (class `CollectorSubscriber`), the snapshot
persistence (`loadSubscriptions` / `saveSubscriptions`) and the `/subscribe`
route.

The JavaScript runtime collections are embedded as insertion-ordered
association lists (`Map<string, V>`) and insertion-ordered duplicate-free
lists (`Set<string>`), which is exactly the observable semantics of the
ECMAScript collections: `Map.set` overwrites in place keeping the original
position and appends fresh keys at the end, `Set.add` appends when absent,
`delete` removes while keeping the order of the remaining elements, and
iteration follows insertion order.
-/

namespace Liberdus

/-- Lookup in a JS `Map<string, V>` modelled as an association list:
returns the value of the first (in a well-formed map, only) binding. -/
def mapGet {V : Type} (k : String) : List (String × V) → Option V
  | [] => none
  | (k2, v) :: t => if k2 = k then some v else mapGet k t

/-- JS `Map.set`: overwrite in place when the key is present, append at the
end otherwise. -/
def mapSet {V : Type} (k : String) (v : V) : List (String × V) → List (String × V)
  | [] => [(k, v)]
  | (k2, v2) :: t => if k2 = k then (k, v) :: t else (k2, v2) :: mapSet k v t

/-- JS `Map.delete`: remove the binding of the key, keeping all others in
order. -/
def mapDelete {V : Type} (k : String) : List (String × V) → List (String × V)
  | [] => []
  | (k2, v2) :: t => if k2 = k then mapDelete k t else (k2, v2) :: mapDelete k t

/-- JS `Set.add`: append the element when absent, no-op when present. -/
def setAdd (x : String) (s : List String) : List String :=
  if x ∈ s then s else s ++ [x]

/-- JS `Set.delete`: remove the element, keeping the rest in order. -/
def setDelete (x : String) (s : List String) : List String :=
  s.filter (fun y => y != x)

theorem mapGet_mapSet {V : Type} (k b : String) (v : V) (l : List (String × V)) :
    mapGet b (mapSet k v l) = if k = b then some v else mapGet b l := by
  induction l with
  | nil => by_cases h : k = b <;> simp [mapGet, mapSet, h]
  | cons p t ih =>
    obtain ⟨k2, v2⟩ := p
    by_cases h1 : k2 = k
    · subst h1
      by_cases h2 : k2 = b <;> simp [mapGet, mapSet, h2]
    · by_cases h2 : k2 = b
      · subst h2
        have : ¬ k = k2 := fun h => h1 h.symm
        simp [mapGet, mapSet, h1, this]
      · simp [mapGet, mapSet, h1, h2, ih]

theorem mapGet_mapDelete {V : Type} (k b : String) (l : List (String × V)) :
    mapGet b (mapDelete k l) = if k = b then none else mapGet b l := by
  induction l with
  | nil => by_cases h : k = b <;> simp [mapGet, mapDelete, h]
  | cons p t ih =>
    obtain ⟨k2, v2⟩ := p
    by_cases h1 : k2 = k
    · subst h1
      by_cases h2 : k2 = b
      · subst h2
        simp [mapDelete, ih]
      · simp [mapGet, mapDelete, ih, h2]
    · by_cases h2 : k2 = b
      · subst h2
        have hne : ¬ k = k2 := fun h => h1 h.symm
        simp [mapGet, mapDelete, h1, hne]
      · simp [mapGet, mapDelete, h1, h2, ih]

theorem mem_setAdd {x y : String} {s : List String} :
    y ∈ setAdd x s ↔ y = x ∨ y ∈ s := by
  unfold setAdd
  by_cases h : x ∈ s
  · simp only [h, if_pos]
    constructor
    · exact Or.inr
    · rintro (rfl | hy)
      · exact h
      · exact hy
  · simp [h, or_comm]

theorem mem_setDelete {x y : String} {s : List String} :
    y ∈ setDelete x s ↔ y ∈ s ∧ y ≠ x := by
  simp [setDelete, List.mem_filter, bne_iff_ne]

theorem setAdd_ne_nil {x : String} {s : List String} : setAdd x s ≠ [] := by
  intro h
  have : x ∈ setAdd x s := mem_setAdd.mpr (Or.inl rfl)
  rw [h] at this
  exact absurd this (List.not_mem_nil x)

theorem setAdd_nodup {x : String} {s : List String} (h : s.Nodup) :
    (setAdd x s).Nodup := by
  unfold setAdd
  by_cases hx : x ∈ s
  · simpa [hx]
  · simp only [hx, if_neg, not_false_iff]
    rw [List.nodup_append]
    refine ⟨h, List.nodup_singleton x, ?_⟩
    intro a ha hb
    simp only [List.mem_singleton] at hb
    subst hb
    exact hx ha

theorem setDelete_nodup {x : String} {s : List String} (h : s.Nodup) :
    (setDelete x s).Nodup :=
  h.filter _

theorem setDelete_of_not_mem {x : String} {s : List String} (h : x ∉ s) :
    setDelete x s = s := by
  apply List.filter_eq_self.mpr
  intro a ha
  exact bne_iff_ne.mpr (fun e => h (e ▸ ha))

theorem not_mem_setDelete {x : String} {s : List String} : x ∉ setDelete x s := by
  intro h
  exact absurd rfl (mem_setDelete.mp h).2

theorem setDelete_idem {x : String} {s : List String} :
    setDelete x (setDelete x s) = setDelete x s :=
  setDelete_of_not_mem not_mem_setDelete

theorem setAdd_mem_eq {x : String} {s : List String} (h : x ∈ s) :
    setAdd x s = s := by
  simp [setAdd, h]

theorem setAdd_idem {x : String} {s : List String} :
    setAdd x (setAdd x s) = setAdd x s :=
  setAdd_mem_eq (mem_setAdd.mpr (Or.inl rfl))

theorem mapGet_eq_none_iff {V : Type} {k : String} {l : List (String × V)} :
    mapGet k l = none ↔ k ∉ l.map Prod.fst := by
  induction l with
  | nil => simp [mapGet]
  | cons p t ih =>
    obtain ⟨k2, v2⟩ := p
    by_cases h : k2 = k
    · subst h
      simp [mapGet]
    · have hne : k ≠ k2 := fun e => h e.symm
      simp only [mapGet, h, if_neg, not_false_iff, if_false, List.map_cons, List.mem_cons]
      rw [ih]
      constructor
      · intro h1 h2
        rcases h2 with h2 | h2
        · exact hne h2
        · exact h1 h2
      · intro h1 h2
        exact h1 (Or.inr h2)

theorem mapSet_of_absent {V : Type} {k : String} {l : List (String × V)} (v : V)
    (h : mapGet k l = none) : mapSet k v l = l ++ [(k, v)] := by
  induction l with
  | nil => simp [mapSet]
  | cons p t ih =>
    obtain ⟨k2, v2⟩ := p
    by_cases h2 : k2 = k
    · subst h2
      simp [mapGet] at h
    · simp only [mapGet, h2, if_neg, not_false_iff, if_false] at h ⊢
      simp [mapSet, h2, ih h]

theorem mapSet_keys_of_present {V : Type} {k : String} {l : List (String × V)} (v : V)
    (h : mapGet k l ≠ none) : (mapSet k v l).map Prod.fst = l.map Prod.fst := by
  induction l with
  | nil => simp [mapGet] at h
  | cons p t ih =>
    obtain ⟨k2, v2⟩ := p
    by_cases h2 : k2 = k
    · subst h2
      simp [mapSet]
    · simp only [mapGet, h2, if_neg, not_false_iff, if_false] at h
      simp [mapSet, h2, ih h]

theorem mapSet_keys_of_absent {V : Type} {k : String} {l : List (String × V)} (v : V)
    (h : mapGet k l = none) : (mapSet k v l).map Prod.fst = l.map Prod.fst ++ [k] := by
  rw [mapSet_of_absent v h]
  simp

theorem mapDelete_keys {V : Type} {k : String} {l : List (String × V)} :
    (mapDelete k l).map Prod.fst = (l.map Prod.fst).filter (fun y => y != k) := by
  induction l with
  | nil => simp [mapDelete]
  | cons p t ih =>
    obtain ⟨k2, v2⟩ := p
    by_cases h : k2 = k
    · subst h
      simp [mapDelete, ih]
    · simp [mapDelete, h, ih, bne_iff_ne]

theorem mapDelete_keys_nodup {V : Type} {k : String} {l : List (String × V)}
    (h : (l.map Prod.fst).Nodup) : ((mapDelete k l).map Prod.fst).Nodup := by
  rw [mapDelete_keys]
  exact h.filter _

theorem mem_of_mapGet_eq_some {V : Type} {k : String} {v : V} {l : List (String × V)}
    (h : mapGet k l = some v) : (k, v) ∈ l := by
  induction l with
  | nil => simp [mapGet] at h
  | cons p t ih =>
    obtain ⟨k2, v2⟩ := p
    by_cases h2 : k2 = k
    · subst h2
      simp [mapGet] at h
      simp [h]
    · simp only [mapGet, h2, if_neg, not_false_iff, if_false] at h
      exact List.mem_cons_of_mem _ (ih h)

theorem mapGet_eq_some_of_mem {V : Type} {k : String} {v : V} {l : List (String × V)}
    (hnd : (l.map Prod.fst).Nodup) (h : (k, v) ∈ l) : mapGet k l = some v := by
  induction l with
  | nil => simp at h
  | cons p t ih =>
    obtain ⟨k2, v2⟩ := p
    simp only [List.map_cons, List.nodup_cons] at hnd
    rcases List.mem_cons.mp h with h1 | h1
    · have e1 : k2 = k := (congrArg Prod.fst h1).symm
      have e2 : v2 = v := (congrArg Prod.snd h1).symm
      subst e1
      subst e2
      simp [mapGet]
    · have hk : k2 ≠ k := by
        intro e
        subst e
        exact hnd.1 (List.mem_map.mpr ⟨(k2, v), h1, rfl⟩)
      simp only [mapGet, hk, if_neg, not_false_iff, if_false]
      exact ih hnd.2 h1

/-- JS `new Set(list)`: insertion-order deduplication. -/
def jsSetOfList (l : List String) : List String :=
  l.foldl (fun acc x => setAdd x acc) []

theorem mem_foldl_setAdd (l : List String) :
    ∀ (acc : List String) (y : String),
      y ∈ l.foldl (fun acc x => setAdd x acc) acc ↔ y ∈ acc ∨ y ∈ l := by
  induction l with
  | nil => simp
  | cons x t ih =>
    intro acc y
    simp only [List.foldl_cons, ih, mem_setAdd, List.mem_cons]
    tauto

theorem mem_jsSetOfList {l : List String} {y : String} :
    y ∈ jsSetOfList l ↔ y ∈ l := by
  unfold jsSetOfList
  rw [mem_foldl_setAdd]
  simp

theorem nodup_foldl_setAdd (l : List String) :
    ∀ (acc : List String), acc.Nodup → (l.foldl (fun acc x => setAdd x acc) acc).Nodup := by
  induction l with
  | nil => intro acc h; simpa
  | cons x t ih =>
    intro acc h
    exact ih _ (setAdd_nodup h)

theorem jsSetOfList_nodup {l : List String} : (jsSetOfList l).Nodup :=
  nodup_foldl_setAdd l [] List.nodup_nil

theorem jsSetOfList_ne_nil {l : List String} (h : l ≠ []) : jsSetOfList l ≠ [] := by
  obtain ⟨x, hx⟩ := List.exists_mem_of_ne_nil l h
  intro he
  have : x ∈ jsSetOfList l := mem_jsSetOfList.mpr hx
  rw [he] at this
  exact absurd this (List.not_mem_nil x)

theorem foldl_setAdd_eq_append (l : List String) :
    ∀ (acc : List String), l.Nodup → (∀ x ∈ l, x ∉ acc) →
      l.foldl (fun acc x => setAdd x acc) acc = acc ++ l := by
  induction l with
  | nil => intro acc _ _; simp
  | cons x t ih =>
    intro acc hnd hdisj
    simp only [List.foldl_cons]
    have hx : x ∉ acc := hdisj x (List.mem_cons_self x t)
    rw [setAdd, if_neg hx]
    rw [ih (acc ++ [x]) (List.nodup_cons.mp hnd).2]
    · simp
    · intro y hy
      simp only [List.mem_append, List.mem_singleton]
      rintro (h1 | rfl)
      · exact hdisj y (List.mem_cons_of_mem _ hy) h1
      · exact (List.nodup_cons.mp hnd).1 hy

theorem jsSetOfList_eq_self {l : List String} (h : l.Nodup) : jsSetOfList l = l := by
  unfold jsSetOfList
  rw [foldl_setAdd_eq_append l [] h (by simp)]
  simp

/-- JS `String.prototype.toLowerCase` restricted to the ASCII range, which is
the alphabet of the addresses this service handles. -/
def toLowerStr (s : String) : String :=
  ⟨s.data.map Char.toLower⟩

/-! The subscription registry (`LiberdusNotificationService`). -/

/-- One subscription, per the `Subscription` interface: a set of normalized
addresses, an optional Expo push token and a creation timestamp (an opaque
string here). -/
structure Subscription where
  addresses : List String
  expoPushToken : Option String
  createdAt : String
deriving DecidableEq

/-- The in-memory registry state: the `subscriptions` map (device token to
subscription) and the derived `addressToDevices` index (address to set of
device tokens). -/
structure ServiceState where
  subscriptions : List (String × Subscription)
  addressToDevices : List (String × List String)
deriving DecidableEq

/-- The state of a freshly constructed service. -/
def emptyState : ServiceState :=
  { subscriptions := [], addressToDevices := [] }

/-- The shared index-entry cleanup used by `removeSubscription` (lines
505-512) and `unlinkOldDevices` (lines 486-490): delete a device from the
entry of one address and drop the entry when it becomes empty. -/
def removeDeviceFromEntry (dev : String) (idx : List (String × List String))
    (a : String) : List (String × List String) :=
  match mapGet a idx with
  | none => idx
  | some devices =>
    let devices2 := setDelete dev devices
    if devices2 = [] then mapDelete a idx else mapSet a devices2 idx

/-- The transform `removeDeviceFromEntry` applies to the entry of the
targeted address: delete the device, pruning the entry if it empties. -/
def pruneDev (dev : String) (o : Option (List String)) : Option (List String) :=
  match o with
  | none => none
  | some devices =>
    let devices2 := setDelete dev devices
    if devices2 = [] then none else some devices2

/-- The body of the inner loop of `unlinkOldDevices` (lines 472-492): if
`otherDevice` is a different device whose stored push token equals the
incoming one, strip the address from its subscription (deleting the
subscription when its address set empties) and remove it from the index
entry of the address. -/
def unlinkDev (deviceToken expoPushToken address : String) (st : ServiceState)
    (otherDevice : String) : ServiceState :=
  if otherDevice = deviceToken then st
  else
    match mapGet otherDevice st.subscriptions with
    | none => st
    | some otherSub =>
      if otherSub.expoPushToken = some expoPushToken then
        let newAddrs := setDelete address otherSub.addresses
        let subs1 := mapSet otherDevice { otherSub with addresses := newAddrs } st.subscriptions
        let subs2 := if newAddrs = [] then mapDelete otherDevice subs1 else subs1
        { subscriptions := subs2,
          addressToDevices := removeDeviceFromEntry otherDevice st.addressToDevices address }
      else st

/-- The body of the outer loop of `unlinkOldDevices` (lines 469-494): walk
the current claimants of one lower-cased address. -/
def unlinkOne (deviceToken expoPushToken : String) (st : ServiceState)
    (address : String) : ServiceState :=
  match mapGet address st.addressToDevices with
  | none => st
  | some existingDevices =>
    existingDevices.foldl (unlinkDev deviceToken expoPushToken address) st

/-- `unlinkOldDevices` (lines 468-496). -/
def unlinkOldDevices (deviceToken : String) (addresses : List String)
    (expoPushToken : String) (st : ServiceState) : ServiceState :=
  (addresses.map toLowerStr).foldl (unlinkOne deviceToken expoPushToken) st

/-- `removeSubscription` (lines 498-520). The `saveSubscriptions` call at the
end only persists and does not change the in-memory state. -/
def removeSubscription (deviceToken : String) (st : ServiceState) : ServiceState :=
  match mapGet deviceToken st.subscriptions with
  | none => st
  | some subscription =>
    { subscriptions := mapDelete deviceToken st.subscriptions,
      addressToDevices :=
        subscription.addresses.foldl (removeDeviceFromEntry deviceToken) st.addressToDevices }

/-- The index-update step of the install loop of `addSubscription` (lines
457-462): ensure an entry exists for the address, then add the device. -/
def installStep (deviceToken : String) (idx : List (String × List String))
    (a : String) : List (String × List String) :=
  mapSet a (setAdd deviceToken ((mapGet a idx).getD [])) idx

/-- `addSubscription` (lines 437-466): unlink same-push-token claimants of
the target addresses, fully remove any previous subscription of the device,
then install the new subscription and index entries. `now` stands for the
`new Date().toISOString()` timestamp. -/
def addSubscription (deviceToken : String) (addresses : List String)
    (expoPushToken : String) (now : String) (st : ServiceState) : ServiceState :=
  let st1 := unlinkOldDevices deviceToken addresses expoPushToken st
  let st2 := removeSubscription deviceToken st1
  let addressSet := jsSetOfList (addresses.map toLowerStr)
  { subscriptions :=
      mapSet deviceToken
        { addresses := addressSet, expoPushToken := some expoPushToken, createdAt := now }
        st2.subscriptions,
    addressToDevices := addressSet.foldl (installStep deviceToken) st2.addressToDevices }

/-- `getDevicesForAddress` (lines 523-525): a raw index lookup on the exact
address string, defaulting to the empty set. Note that the argument is NOT
lower-cased. -/
def getDevicesForAddress (address : String) (st : ServiceState) : List String :=
  (mapGet address st.addressToDevices).getD []

/-- Registry states reachable by `addSubscription` calls with non-empty
address lists and `removeSubscription` calls, starting from the state of a
freshly constructed service. -/
inductive Reachable : ServiceState → Prop
  | empty : Reachable emptyState
  | add (st : ServiceState) (deviceToken : String) (addresses : List String)
      (expoPushToken now : String) (h : addresses ≠ []) :
      Reachable st → Reachable (addSubscription deviceToken addresses expoPushToken now st)
  | remove (st : ServiceState) (deviceToken : String) :
      Reachable st → Reachable (removeSubscription deviceToken st)

/-! Characterization lemmas for the registry operations. -/

/-- The index entry of an address contains a device. -/
def entryHas (o : Option (List String)) (e : String) : Prop :=
  ∃ ds, o = some ds ∧ e ∈ ds

/-- The subscription of a device contains an address. -/
def subHas (o : Option Subscription) (a : String) : Prop :=
  ∃ sub, o = some sub ∧ a ∈ sub.addresses

theorem entryHas_none {e : String} : entryHas none e ↔ False := by
  simp [entryHas]

theorem entryHas_some {ds : List String} {e : String} : entryHas (some ds) e ↔ e ∈ ds := by
  simp [entryHas]

theorem entryHas_pruneDev {x e : String} {o : Option (List String)} :
    entryHas (pruneDev x o) e ↔ entryHas o e ∧ e ≠ x := by
  cases o with
  | none => simp [pruneDev, entryHas_none]
  | some ds =>
    simp only [pruneDev, entryHas_some]
    by_cases h : setDelete x ds = []
    · simp only [h, if_pos, entryHas_none]
      constructor
      · intro hc
        exact hc.elim
      · rintro ⟨hm, hne⟩
        have h2 : e ∈ setDelete x ds := mem_setDelete.mpr ⟨hm, hne⟩
        rw [h] at h2
        exact absurd h2 (List.not_mem_nil e)
    · simp only [h, if_neg, not_false_iff, if_false, entryHas_some]
      exact mem_setDelete

theorem pruneDev_some_ne_nil {x : String} {o : Option (List String)} {ds : List String}
    (h : pruneDev x o = some ds) : ds ≠ [] := by
  cases o with
  | none => simp [pruneDev] at h
  | some ds0 =>
    simp only [pruneDev] at h
    by_cases h2 : setDelete x ds0 = []
    · simp [h2] at h
    · simp only [h2, if_neg, not_false_iff, if_false, Option.some.injEq] at h
      rw [← h]
      exact h2

theorem pruneDev_some_nodup {x : String} {o : Option (List String)} {ds : List String}
    (hnd : ∀ ds0, o = some ds0 → ds0.Nodup) (h : pruneDev x o = some ds) : ds.Nodup := by
  cases o with
  | none => simp [pruneDev] at h
  | some ds0 =>
    simp only [pruneDev] at h
    by_cases h2 : setDelete x ds0 = []
    · simp [h2] at h
    · simp only [h2, if_neg, not_false_iff, if_false, Option.some.injEq] at h
      rw [← h]
      exact setDelete_nodup (hnd ds0 rfl)

theorem pruneDev_idem {x : String} (o : Option (List String)) :
    pruneDev x (pruneDev x o) = pruneDev x o := by
  cases o with
  | none => simp [pruneDev]
  | some ds =>
    simp only [pruneDev]
    by_cases h : setDelete x ds = []
    · simp [h, pruneDev]
    · simp only [h, if_neg, not_false_iff, if_false, pruneDev, setDelete_idem, h]

theorem removeDeviceFromEntry_get {dev : String} {idx : List (String × List String)}
    {a b : String} :
    mapGet b (removeDeviceFromEntry dev idx a) =
      if a = b then pruneDev dev (mapGet a idx) else mapGet b idx := by
  unfold removeDeviceFromEntry
  cases hv : mapGet a idx with
  | none =>
    by_cases h : a = b
    · subst h
      simp [pruneDev, hv]
    · simp [h]
  | some devices =>
    simp only
    by_cases h2 : setDelete dev devices = []
    · simp only [h2, if_pos]
      rw [mapGet_mapDelete]
      by_cases h : a = b
      · subst h
        simp [pruneDev, h2]
      · simp [h]
    · simp only [h2, if_neg, not_false_iff, if_false]
      rw [mapGet_mapSet]
      by_cases h : a = b
      · subst h
        simp [pruneDev, h2]
      · simp [h]

theorem foldl_entry_get (T : Option (List String) → Option (List String))
    (step : List (String × List String) → String → List (String × List String))
    (hstep : ∀ idx a b, mapGet b (step idx a) = if a = b then T (mapGet a idx) else mapGet b idx)
    (hidem : ∀ o, T (T o) = T o) :
    ∀ (l : List String) (idx : List (String × List String)) (b : String),
      mapGet b (l.foldl step idx) = if b ∈ l then T (mapGet b idx) else mapGet b idx := by
  intro l
  induction l with
  | nil => intro idx b; simp
  | cons a0 rest ih =>
    intro idx b
    simp only [List.foldl_cons]
    rw [ih]
    by_cases h0 : a0 = b
    · subst h0
      by_cases hb : a0 ∈ rest <;> simp [hb, hstep, hidem]
    · have h0b : ¬ b = a0 := fun h => h0 h.symm
      by_cases hb : b ∈ rest <;> simp [hb, hstep, h0, h0b, List.mem_cons]

theorem removeSubscription_subs_get {d e : String} {st : ServiceState} :
    mapGet e (removeSubscription d st).subscriptions =
      if e = d then none else mapGet e st.subscriptions := by
  unfold removeSubscription
  cases hv : mapGet d st.subscriptions with
  | none =>
    by_cases h : e = d
    · subst h
      simp [hv]
    · simp [h]
  | some sub =>
    simp only
    rw [mapGet_mapDelete]
    by_cases h : e = d
    · subst h
      simp
    · rw [if_neg (fun e2 : d = e => h e2.symm), if_neg h]

theorem removeSubscription_idx_get {d : String} {st : ServiceState} {sub : Subscription}
    (hsub : mapGet d st.subscriptions = some sub) (b : String) :
    mapGet b (removeSubscription d st).addressToDevices =
      if b ∈ sub.addresses then pruneDev d (mapGet b st.addressToDevices)
      else mapGet b st.addressToDevices := by
  unfold removeSubscription
  rw [hsub]
  simp only
  exact foldl_entry_get (pruneDev d) (removeDeviceFromEntry d)
    (fun idx a b => removeDeviceFromEntry_get) (fun o => pruneDev_idem o)
    sub.addresses st.addressToDevices b

theorem removeSubscription_of_none {d : String} {st : ServiceState}
    (h : mapGet d st.subscriptions = none) : removeSubscription d st = st := by
  unfold removeSubscription
  rw [h]

/-- The transform the install loop applies to the entry of each normalized
address: add the device to the existing entry, or to a fresh empty one. -/
def installT (d : String) (o : Option (List String)) : Option (List String) :=
  some (setAdd d (o.getD []))

theorem installStep_get {d : String} {idx : List (String × List String)} {a b : String} :
    mapGet b (installStep d idx a) =
      if a = b then installT d (mapGet a idx) else mapGet b idx := by
  unfold installStep installT
  rw [mapGet_mapSet]

theorem installT_idem {d : String} (o : Option (List String)) :
    installT d (installT d o) = installT d o := by
  simp [installT, setAdd_idem]

/-- The effect of one `unlinkOldDevices` inner-loop iteration on the
subscription of the visited device. -/
def stripSub (deviceToken expoPushToken address : String) (st : ServiceState)
    (od : String) : Option Subscription :=
  match mapGet od st.subscriptions with
  | none => none
  | some osub =>
    if od ≠ deviceToken ∧ osub.expoPushToken = some expoPushToken then
      let na := setDelete address osub.addresses
      if na = [] then none else some { osub with addresses := na }
    else some osub

/-- Whether the inner loop of `unlinkOldDevices` strips the visited device:
it is a different device and its stored push token equals the incoming one. -/
def tokenMatches (deviceToken expoPushToken : String) (st : ServiceState)
    (od : String) : Bool :=
  if od = deviceToken then false
  else
    match mapGet od st.subscriptions with
    | none => false
    | some osub => decide (osub.expoPushToken = some expoPushToken)

theorem stripSub_congr {d tok a : String} {st1 st2 : ServiceState} {od : String}
    (h : mapGet od st1.subscriptions = mapGet od st2.subscriptions) :
    stripSub d tok a st1 od = stripSub d tok a st2 od := by
  unfold stripSub
  rw [h]

theorem tokenMatches_congr {d tok : String} {st1 st2 : ServiceState} {od : String}
    (h : mapGet od st1.subscriptions = mapGet od st2.subscriptions) :
    tokenMatches d tok st1 od = tokenMatches d tok st2 od := by
  unfold tokenMatches
  rw [h]

theorem unlinkDev_of_not_matches {d tok a : String} {st : ServiceState} {od : String}
    (h : tokenMatches d tok st od = false) : unlinkDev d tok a st od = st := by
  unfold unlinkDev
  unfold tokenMatches at h
  by_cases h1 : od = d
  · simp [h1]
  · simp only [h1, if_neg, not_false_iff, if_false] at h ⊢
    cases hv : mapGet od st.subscriptions with
    | none => simp
    | some osub =>
      rw [hv] at h
      simp only [decide_eq_false_iff_not] at h
      simp [h]

theorem unlinkDev_subs_get {d tok a : String} {st : ServiceState} {od e : String} :
    mapGet e (unlinkDev d tok a st od).subscriptions =
      if e = od then stripSub d tok a st od else mapGet e st.subscriptions := by
  by_cases h2 : e = od
  · subst h2
    rw [if_pos rfl]
    unfold unlinkDev stripSub
    by_cases h1 : e = d
    · rw [if_pos h1]
      cases hv : mapGet e st.subscriptions with
      | none => simp [hv]
      | some osub =>
        simp only [hv]
        rw [if_neg (fun hc : ¬e = d ∧ osub.expoPushToken = some tok => hc.1 h1)]
    · rw [if_neg h1]
      cases hv : mapGet e st.subscriptions with
      | none => simp [hv]
      | some osub =>
        simp only
        by_cases h3 : osub.expoPushToken = some tok
        · simp only [h3, ne_eq, h1, not_false_iff, true_and, if_pos]
          by_cases h4 : setDelete a osub.addresses = []
          · simp only [h4, if_pos]
            rw [mapGet_mapDelete, if_pos rfl]
          · simp only [h4, if_neg, not_false_iff, if_false]
            rw [mapGet_mapSet, if_pos rfl]
        · have : ¬ (e ≠ d ∧ osub.expoPushToken = some tok) := fun hc => h3 hc.2
          simp only [h3, if_neg, not_false_iff, and_false, if_false, this, hv]
  · rw [if_neg h2]
    unfold unlinkDev
    by_cases h1 : od = d
    · rw [if_pos h1]
    · rw [if_neg h1]
      cases hv : mapGet od st.subscriptions with
      | none => rfl
      | some osub =>
        simp only
        by_cases h3 : osub.expoPushToken = some tok
        · simp only [h3, if_pos]
          by_cases h4 : setDelete a osub.addresses = []
          · simp only [h4, if_pos]
            rw [mapGet_mapDelete, if_neg (fun h : od = e => h2 h.symm),
              mapGet_mapSet, if_neg (fun h : od = e => h2 h.symm)]
          · simp only [h4, if_neg, not_false_iff, if_false]
            rw [mapGet_mapSet, if_neg (fun h : od = e => h2 h.symm)]
        · simp only [h3, if_neg, not_false_iff, if_false]

theorem unlinkDev_idx_get {d tok a : String} {st : ServiceState} {od b : String} :
    mapGet b (unlinkDev d tok a st od).addressToDevices =
      if a = b ∧ tokenMatches d tok st od = true then
        pruneDev od (mapGet a st.addressToDevices)
      else mapGet b st.addressToDevices := by
  by_cases hm : tokenMatches d tok st od = true
  · simp only [hm, and_true]
    unfold unlinkDev
    unfold tokenMatches at hm
    by_cases h1 : od = d
    · simp [h1] at hm
    · simp only [h1, if_neg, not_false_iff, if_false] at hm ⊢
      cases hv : mapGet od st.subscriptions with
      | none => rw [hv] at hm; simp at hm
      | some osub =>
        rw [hv] at hm
        simp only [decide_eq_true_eq] at hm
        simp only [hm, if_pos]
        rw [removeDeviceFromEntry_get]
  · have hm2 : tokenMatches d tok st od = false := eq_false_of_ne_true hm
    rw [unlinkDev_of_not_matches hm2]
    simp [hm2]

/-! The registry invariant and its preservation. -/

theorem subHas_none {a : String} : subHas none a ↔ False := by
  simp [subHas]

theorem subHas_some {sub : Subscription} {a : String} :
    subHas (some sub) a ↔ a ∈ sub.addresses := by
  simp [subHas]

theorem setDelete_eq_nil_forall {x : String} {s : List String}
    (h : setDelete x s = []) : ∀ y ∈ s, y = x := by
  intro y hy
  by_contra hne
  have : y ∈ setDelete x s := mem_setDelete.mpr ⟨hy, hne⟩
  rw [h] at this
  exact absurd this (List.not_mem_nil y)

theorem mem_getD_iff_entryHas {o : Option (List String)} {e : String} :
    e ∈ o.getD [] ↔ entryHas o e := by
  cases o with
  | none => simp [entryHas_none]
  | some ds => simp [entryHas_some]

theorem getD_nodup {o : Option (List String)}
    (h : ∀ ds, o = some ds → ds.Nodup) : (o.getD []).Nodup := by
  cases o with
  | none => simp
  | some ds => exact h ds rfl

theorem tokenMatches_elim {d tok : String} {st : ServiceState} {od : String}
    (h : tokenMatches d tok st od = true) :
    ¬ od = d ∧ ∃ osub, mapGet od st.subscriptions = some osub ∧
      osub.expoPushToken = some tok := by
  unfold tokenMatches at h
  by_cases h1 : od = d
  · simp [h1] at h
  · rw [if_neg h1] at h
    refine ⟨h1, ?_⟩
    cases hv : mapGet od st.subscriptions with
    | none => rw [hv] at h; simp at h
    | some osub =>
      rw [hv] at h
      simp only [decide_eq_true_eq] at h
      exact ⟨osub, rfl, h⟩

theorem stripSub_of_matches {d tok a : String} {st : ServiceState} {od : String}
    {osub : Subscription} (h1 : ¬ od = d)
    (hv : mapGet od st.subscriptions = some osub)
    (h3 : osub.expoPushToken = some tok) :
    stripSub d tok a st od =
      if setDelete a osub.addresses = [] then none
      else some { osub with addresses := setDelete a osub.addresses } := by
  unfold stripSub
  rw [hv]
  simp [h1, h3]

/-- The registry invariant: the address index is exactly the inverse of the
subscription map, no index entry and no subscription address set is empty,
sets are duplicate-free and the subscription map has duplicate-free keys. -/
structure Inv (st : ServiceState) : Prop where
  inverse : ∀ a d, entryHas (mapGet a st.addressToDevices) d ↔
    subHas (mapGet d st.subscriptions) a
  idxNonempty : ∀ a devs, mapGet a st.addressToDevices = some devs → devs ≠ []
  subNonempty : ∀ d sub, mapGet d st.subscriptions = some sub → sub.addresses ≠ []
  idxNodup : ∀ a devs, mapGet a st.addressToDevices = some devs → devs.Nodup
  subAddrNodup : ∀ d sub, mapGet d st.subscriptions = some sub → sub.addresses.Nodup
  subsKeysNodup : (st.subscriptions.map Prod.fst).Nodup

theorem inv_emptyState : Inv emptyState := by
  constructor <;> simp [emptyState, mapGet, entryHas_none, subHas_none]

theorem unlinkDev_keys_nodup {d tok a : String} {st : ServiceState} {od : String}
    (h : (st.subscriptions.map Prod.fst).Nodup) :
    ((unlinkDev d tok a st od).subscriptions.map Prod.fst).Nodup := by
  unfold unlinkDev
  by_cases h1 : od = d
  · simpa [h1]
  · simp only [h1, if_neg, not_false_iff, if_false]
    cases hv : mapGet od st.subscriptions with
    | none => simpa
    | some osub =>
      simp only
      by_cases h3 : osub.expoPushToken = some tok
      · simp only [h3, if_pos]
        have hz : mapGet od st.subscriptions ≠ none := by
          rw [hv]
          exact fun hc => Option.noConfusion hc
        by_cases h4 : setDelete a osub.addresses = []
        · simp only [h4, if_pos]
          exact mapDelete_keys_nodup (by rw [mapSet_keys_of_present _ hz]; exact h)
        · simp only [h4, if_neg, not_false_iff, if_false]
          rw [mapSet_keys_of_present _ hz]
          exact h
      · simpa [h3]

theorem inv_unlinkDev {d tok a : String} {st : ServiceState} {od : String}
    (hInv : Inv st) : Inv (unlinkDev d tok a st od) := by
  by_cases hm : tokenMatches d tok st od = true
  · obtain ⟨h1, osub, hv, h3⟩ := tokenMatches_elim hm
    have hsg : ∀ e, mapGet e (unlinkDev d tok a st od).subscriptions =
        if e = od then
          (if setDelete a osub.addresses = [] then none
           else some { osub with addresses := setDelete a osub.addresses })
        else mapGet e st.subscriptions := by
      intro e
      rw [unlinkDev_subs_get, stripSub_of_matches h1 hv h3]
    have hig : ∀ b, mapGet b (unlinkDev d tok a st od).addressToDevices =
        if a = b then pruneDev od (mapGet a st.addressToDevices)
        else mapGet b st.addressToDevices := by
      intro b
      rw [unlinkDev_idx_get]
      simp [hm]
    constructor
    · intro b e
      rw [hsg, hig]
      by_cases hab : a = b
      · subst hab
        rw [if_pos rfl, entryHas_pruneDev]
        by_cases heod : e = od
        · subst heod
          rw [if_pos rfl]
          simp only [ne_eq, not_true_eq_false, and_false, false_iff]
          by_cases h4 : setDelete a osub.addresses = []
          · simp [h4, subHas_none]
          · simp only [h4, if_neg, not_false_iff, if_false, subHas_some]
            exact fun hc => absurd hc not_mem_setDelete
        · rw [if_neg heod]
          constructor
          · rintro ⟨h5, _⟩
            exact (hInv.inverse a e).mp h5
          · intro h5
            exact ⟨(hInv.inverse a e).mpr h5, heod⟩
      · rw [if_neg hab]
        by_cases heod : e = od
        · subst heod
          rw [if_pos rfl, hInv.inverse b e, hv]
          by_cases h4 : setDelete a osub.addresses = []
          · simp only [h4, if_pos, subHas_none, subHas_some, iff_false]
            intro hc
            exact hab ((setDelete_eq_nil_forall h4 b hc).symm)
          · simp only [h4, if_neg, not_false_iff, if_false, subHas_some]
            constructor
            · intro hc
              exact mem_setDelete.mpr ⟨hc, fun hba => hab hba.symm⟩
            · intro hc
              exact (mem_setDelete.mp hc).1
        · rw [if_neg heod]
          exact hInv.inverse b e
    · intro b devs hdevs
      rw [hig] at hdevs
      by_cases hab : a = b
      · rw [if_pos hab] at hdevs
        exact pruneDev_some_ne_nil hdevs
      · rw [if_neg hab] at hdevs
        exact hInv.idxNonempty b devs hdevs
    · intro e sub hsub
      rw [hsg] at hsub
      by_cases heod : e = od
      · rw [if_pos heod] at hsub
        by_cases h4 : setDelete a osub.addresses = []
        · simp [h4] at hsub
        · simp only [h4, if_neg, not_false_iff, if_false, Option.some.injEq] at hsub
          rw [← hsub]
          exact h4
      · rw [if_neg heod] at hsub
        exact hInv.subNonempty e sub hsub
    · intro b devs hdevs
      rw [hig] at hdevs
      by_cases hab : a = b
      · rw [if_pos hab] at hdevs
        exact pruneDev_some_nodup (fun ds0 h0 => hInv.idxNodup a ds0 h0) hdevs
      · rw [if_neg hab] at hdevs
        exact hInv.idxNodup b devs hdevs
    · intro e sub hsub
      rw [hsg] at hsub
      by_cases heod : e = od
      · rw [if_pos heod] at hsub
        by_cases h4 : setDelete a osub.addresses = []
        · simp [h4] at hsub
        · simp only [h4, if_neg, not_false_iff, if_false, Option.some.injEq] at hsub
          rw [← hsub]
          exact setDelete_nodup (hInv.subAddrNodup od osub hv)
      · rw [if_neg heod] at hsub
        exact hInv.subAddrNodup e sub hsub
    · exact unlinkDev_keys_nodup hInv.subsKeysNodup
  · rw [unlinkDev_of_not_matches (eq_false_of_ne_true hm)]
    exact hInv

theorem inv_foldl {f : ServiceState → String → ServiceState}
    (hf : ∀ st x, Inv st → Inv (f st x)) :
    ∀ (l : List String) (st : ServiceState), Inv st → Inv (l.foldl f st) := by
  intro l
  induction l with
  | nil => intro st h; simpa
  | cons x t ih =>
    intro st h
    simp only [List.foldl_cons]
    exact ih (f st x) (hf st x h)

theorem inv_unlinkOne {d tok : String} {st : ServiceState} {a : String}
    (hInv : Inv st) : Inv (unlinkOne d tok st a) := by
  unfold unlinkOne
  cases hv : mapGet a st.addressToDevices with
  | none => exact hInv
  | some existingDevices =>
    exact inv_foldl (fun st2 od h => inv_unlinkDev h) existingDevices st hInv

theorem inv_unlinkOldDevices {d : String} {addresses : List String} {tok : String}
    {st : ServiceState} (hInv : Inv st) : Inv (unlinkOldDevices d addresses tok st) := by
  unfold unlinkOldDevices
  exact inv_foldl (fun st2 a h => inv_unlinkOne h) (addresses.map toLowerStr) st hInv

theorem inv_removeSubscription {d : String} {st : ServiceState}
    (hInv : Inv st) : Inv (removeSubscription d st) := by
  cases hv : mapGet d st.subscriptions with
  | none => rw [removeSubscription_of_none hv]; exact hInv
  | some sub =>
    have hsg : ∀ e, mapGet e (removeSubscription d st).subscriptions =
        if e = d then none else mapGet e st.subscriptions :=
      fun e => removeSubscription_subs_get
    have hig : ∀ b, mapGet b (removeSubscription d st).addressToDevices =
        if b ∈ sub.addresses then pruneDev d (mapGet b st.addressToDevices)
        else mapGet b st.addressToDevices :=
      removeSubscription_idx_get hv
    have hkeys : (removeSubscription d st).subscriptions = mapDelete d st.subscriptions := by
      unfold removeSubscription
      rw [hv]
    constructor
    · intro b e
      rw [hsg, hig]
      by_cases heod : e = d
      · subst heod
        rw [if_pos rfl]
        simp only [subHas_none, iff_false]
        by_cases hb : b ∈ sub.addresses
        · rw [if_pos hb, entryHas_pruneDev]
          rintro ⟨_, hc⟩
          exact hc rfl
        · rw [if_neg hb]
          intro hc
          have := (hInv.inverse b e).mp hc
          rw [hv, subHas_some] at this
          exact hb this
      · rw [if_neg heod]
        by_cases hb : b ∈ sub.addresses
        · rw [if_pos hb, entryHas_pruneDev]
          constructor
          · rintro ⟨h5, _⟩
            exact (hInv.inverse b e).mp h5
          · intro h5
            exact ⟨(hInv.inverse b e).mpr h5, heod⟩
        · rw [if_neg hb]
          exact hInv.inverse b e
    · intro b devs hdevs
      rw [hig] at hdevs
      by_cases hb : b ∈ sub.addresses
      · rw [if_pos hb] at hdevs
        exact pruneDev_some_ne_nil hdevs
      · rw [if_neg hb] at hdevs
        exact hInv.idxNonempty b devs hdevs
    · intro e sub2 hsub
      rw [hsg] at hsub
      by_cases heod : e = d
      · rw [if_pos heod] at hsub
        exact Option.noConfusion hsub
      · rw [if_neg heod] at hsub
        exact hInv.subNonempty e sub2 hsub
    · intro b devs hdevs
      rw [hig] at hdevs
      by_cases hb : b ∈ sub.addresses
      · rw [if_pos hb] at hdevs
        exact pruneDev_some_nodup (fun ds0 h0 => hInv.idxNodup b ds0 h0) hdevs
      · rw [if_neg hb] at hdevs
        exact hInv.idxNodup b devs hdevs
    · intro e sub2 hsub
      rw [hsg] at hsub
      by_cases heod : e = d
      · rw [if_pos heod] at hsub
        exact Option.noConfusion hsub
      · rw [if_neg heod] at hsub
        exact hInv.subAddrNodup e sub2 hsub
    · rw [hkeys]
      exact mapDelete_keys_nodup hInv.subsKeysNodup

theorem addSubscription_subs_get {d : String} {addrs : List String} {tok now : String}
    {st : ServiceState} (e : String) :
    mapGet e (addSubscription d addrs tok now st).subscriptions =
      if d = e then
        some { addresses := jsSetOfList (addrs.map toLowerStr),
               expoPushToken := some tok, createdAt := now }
      else mapGet e (removeSubscription d (unlinkOldDevices d addrs tok st)).subscriptions := by
  simp only [addSubscription]
  rw [mapGet_mapSet]

theorem addSubscription_idx_get {d : String} {addrs : List String} {tok now : String}
    {st : ServiceState} (b : String) :
    mapGet b (addSubscription d addrs tok now st).addressToDevices =
      if b ∈ jsSetOfList (addrs.map toLowerStr) then
        installT d (mapGet b (removeSubscription d (unlinkOldDevices d addrs tok st)).addressToDevices)
      else mapGet b (removeSubscription d (unlinkOldDevices d addrs tok st)).addressToDevices := by
  simp only [addSubscription]
  exact foldl_entry_get (installT d) (installStep d)
    (fun idx a b => installStep_get) (fun o => installT_idem o) _ _ b

theorem inv_addSubscription {d : String} {addrs : List String} {tok now : String}
    {st : ServiceState} (haddr : addrs ≠ []) (hInv : Inv st) :
    Inv (addSubscription d addrs tok now st) := by
  have inv2 : Inv (removeSubscription d (unlinkOldDevices d addrs tok st)) :=
    inv_removeSubscription (inv_unlinkOldDevices hInv)
  set st2 := removeSubscription d (unlinkOldDevices d addrs tok st) with hst2
  have hd2 : mapGet d st2.subscriptions = none := by
    rw [hst2, removeSubscription_subs_get, if_pos rfl]
  have hA : jsSetOfList (addrs.map toLowerStr) ≠ [] :=
    jsSetOfList_ne_nil (by
      intro hc
      exact haddr (List.map_eq_nil_iff.mp hc))
  have hkeys : (addSubscription d addrs tok now st).subscriptions =
      mapSet d { addresses := jsSetOfList (addrs.map toLowerStr),
                 expoPushToken := some tok, createdAt := now } st2.subscriptions := by
    simp only [addSubscription]
  constructor
  · intro b e
    rw [addSubscription_subs_get e, addSubscription_idx_get b]
    by_cases he : d = e
    · subst he
      rw [if_pos rfl, subHas_some]
      by_cases hb : b ∈ jsSetOfList (addrs.map toLowerStr)
      · rw [if_pos hb]
        simp only [installT, entryHas_some]
        constructor
        · intro _
          exact hb
        · intro _
          exact mem_setAdd.mpr (Or.inl rfl)
      · rw [if_neg hb]
        constructor
        · intro hc
          have := (inv2.inverse b d).mp hc
          rw [hd2, subHas_none] at this
          exact this.elim
        · intro hc
          exact absurd hc hb
    · rw [if_neg he]
      by_cases hb : b ∈ jsSetOfList (addrs.map toLowerStr)
      · rw [if_pos hb]
        simp only [installT, entryHas_some, mem_setAdd]
        constructor
        · rintro (hc | hc)
          · exact absurd hc.symm he
          · exact (inv2.inverse b e).mp (mem_getD_iff_entryHas.mp hc)
        · intro hc
          exact Or.inr (mem_getD_iff_entryHas.mpr ((inv2.inverse b e).mpr hc))
      · rw [if_neg hb]
        exact inv2.inverse b e
  · intro b devs hdevs
    rw [addSubscription_idx_get b] at hdevs
    by_cases hb : b ∈ jsSetOfList (addrs.map toLowerStr)
    · rw [if_pos hb] at hdevs
      simp only [installT, Option.some.injEq] at hdevs
      rw [← hdevs]
      exact setAdd_ne_nil
    · rw [if_neg hb] at hdevs
      exact inv2.idxNonempty b devs hdevs
  · intro e sub hsub
    rw [addSubscription_subs_get e] at hsub
    by_cases he : d = e
    · rw [if_pos he] at hsub
      injection hsub with h2
      rw [← h2]
      exact hA
    · rw [if_neg he] at hsub
      exact inv2.subNonempty e sub hsub
  · intro b devs hdevs
    rw [addSubscription_idx_get b] at hdevs
    by_cases hb : b ∈ jsSetOfList (addrs.map toLowerStr)
    · rw [if_pos hb] at hdevs
      simp only [installT, Option.some.injEq] at hdevs
      rw [← hdevs]
      exact setAdd_nodup (getD_nodup (fun ds0 h0 => inv2.idxNodup b ds0 h0))
    · rw [if_neg hb] at hdevs
      exact inv2.idxNodup b devs hdevs
  · intro e sub hsub
    rw [addSubscription_subs_get e] at hsub
    by_cases he : d = e
    · rw [if_pos he] at hsub
      injection hsub with h2
      rw [← h2]
      exact jsSetOfList_nodup
    · rw [if_neg he] at hsub
      exact inv2.subAddrNodup e sub hsub
  · rw [hkeys, mapSet_keys_of_absent _ hd2]
    rw [List.nodup_append]
    refine ⟨inv2.subsKeysNodup, List.nodup_singleton d, ?_⟩
    intro x hx hx2
    simp only [List.mem_singleton] at hx2
    subst hx2
    exact (mapGet_eq_none_iff.mp hd2) hx

/-- Every reachable registry state satisfies the invariant. -/
theorem inv_reachable {st : ServiceState} (h : Reachable st) : Inv st := by
  induction h with
  | empty => exact inv_emptyState
  | add st d addrs tok now hne _ ih => exact inv_addSubscription hne ih
  | remove st d _ ih => exact inv_removeSubscription ih

/-! Persistence (`saveSubscriptions`, lines 625-645, and `loadSubscriptions`,
lines 591-623). The snapshot record mirrors the `SavedSubscriptions`
interface; the `JSON.stringify`/`JSON.parse` transport of this record to and
from the file is modelled as the identity on the record, while the parse of
an arbitrary file content is modelled separately below for `load`. -/

/-- One serialized subscription, per the `SubscriptionData` interface:
the address set is written as a sequence. -/
structure SubscriptionData where
  addresses : List String
  expoPushToken : Option String
  createdAt : String
deriving DecidableEq

/-- The snapshot file content, per the `SavedSubscriptions` interface. -/
structure SavedSubscriptions where
  subscriptions : List (String × SubscriptionData)
  lastUpdated : String
deriving DecidableEq

/-- `saveSubscriptions` (lines 625-645): serialize every subscription in map
order, with `Array.from` turning each address set into a sequence. -/
def saveSubscriptions (now : String) (st : ServiceState) : SavedSubscriptions :=
  { subscriptions := st.subscriptions.map (fun p =>
      (p.1, { addresses := p.2.addresses, expoPushToken := p.2.expoPushToken,
              createdAt := p.2.createdAt })),
    lastUpdated := now }

/-- The restore step of `loadSubscriptions` (lines 597-603): `new Set` on the
stored address sequence. -/
def restoreSub (sd : SubscriptionData) : Subscription :=
  { addresses := jsSetOfList sd.addresses, expoPushToken := sd.expoPushToken,
    createdAt := sd.createdAt }

/-- The index rebuild loop of `loadSubscriptions` (lines 606-613): the same
ensure-entry-then-add step as the install loop of `addSubscription`. -/
def rebuildIdx (subs : List (String × Subscription))
    (idx0 : List (String × List String)) : List (String × List String) :=
  subs.foldl (fun idx p => p.2.addresses.foldl (installStep p.1) idx) idx0

/-- The in-memory effect of `loadSubscriptions` on a decoded snapshot
starting from a fresh registry (lines 597-613): restore the subscription map
in snapshot order, then rebuild the address index from it. -/
def loadFromSaved (sv : SavedSubscriptions) : ServiceState :=
  let subs := sv.subscriptions.foldl (fun m p => mapSet p.1 (restoreSub p.2) m) []
  { subscriptions := subs, addressToDevices := rebuildIdx subs [] }

/-! A JSON value and a parser for it, embedding the `JSON.parse` calls of the
service (`loadSubscriptions` line 594 and the event-stream message handler,
line 50). Numeric literals are kept as their lexemes since the service never
computes with parsed numbers. Escaped lone surrogate halves, which Lean
characters cannot represent, are outside the model. -/

inductive Json where
  | null
  | boolean (b : Bool)
  | num (lexeme : String)
  | str (s : String)
  | arr (elems : List Json)
  | obj (fields : List (String × Json))

def openBrace : Char := Char.ofNat 123

def closeBrace : Char := Char.ofNat 125

def isWsChar (c : Char) : Bool :=
  c = ' ' || c = '\t' || c = '\n' || c = '\r'

def skipWs (cs : List Char) : List Char :=
  cs.dropWhile isWsChar

def isDigitChar (c : Char) : Bool :=
  '0' ≤ c && c ≤ '9'

def escMap (c : Char) : Option Char :=
  if c = '"' then some '"'
  else if c = '\\' then some '\\'
  else if c = '/' then some '/'
  else if c = 'b' then some (Char.ofNat 8)
  else if c = 'f' then some (Char.ofNat 12)
  else if c = 'n' then some '\n'
  else if c = 'r' then some '\r'
  else if c = 't' then some '\t'
  else none

def hexVal (c : Char) : Option Nat :=
  if '0' ≤ c && c ≤ '9' then some (c.toNat - 48)
  else if 'a' ≤ c && c ≤ 'f' then some (c.toNat - 87)
  else if 'A' ≤ c && c ≤ 'F' then some (c.toNat - 55)
  else none

/-- Parse the body of a JSON string after the opening quote, decoding
escapes and rejecting raw control characters. -/
def parseStrChars : Nat → List Char → Option (List Char × List Char)
  | 0, _ => none
  | _, [] => none
  | Nat.succ fuel, c :: rest =>
    if c = '"' then some ([], rest)
    else if c = '\\' then
      match rest with
      | [] => none
      | e :: rest2 =>
        if e = 'u' then
          match rest2 with
          | h1 :: h2 :: h3 :: h4 :: rest3 =>
            match hexVal h1, hexVal h2, hexVal h3, hexVal h4 with
            | some n1, some n2, some n3, some n4 =>
              (parseStrChars fuel rest3).map
                (fun p => (Char.ofNat (((n1 * 16 + n2) * 16 + n3) * 16 + n4) :: p.1, p.2))
            | _, _, _, _ => none
          | _ => none
        else
          match escMap e with
          | none => none
          | some c2 => (parseStrChars fuel rest2).map (fun p => (c2 :: p.1, p.2))
    else if c.toNat < 32 then none
    else (parseStrChars fuel rest).map (fun p => (c :: p.1, p.2))

def takeDigits (cs : List Char) : List Char × List Char :=
  (cs.takeWhile isDigitChar, cs.dropWhile isDigitChar)

def parseFracPart (cs : List Char) : Option (List Char × List Char) :=
  match cs with
  | '.' :: t =>
    let p := takeDigits t
    if p.1 = [] then none else some ('.' :: p.1, p.2)
  | _ => some ([], cs)

def parseExpPart (cs : List Char) : Option (List Char × List Char) :=
  match cs with
  | c :: t =>
    if c = 'e' || c = 'E' then
      let q := match t with
        | '+' :: t3 => (['+'], t3)
        | '-' :: t3 => (['-'], t3)
        | _ => (([] : List Char), t)
      let p := takeDigits q.2
      if p.1 = [] then none else some (c :: (q.1 ++ p.1), p.2)
    else some ([], cs)
  | [] => some ([], [])

/-- Lex a JSON numeric literal (sign, integer part without leading zeros,
optional fraction and exponent), returning its lexeme. -/
def parseNumber (cs : List Char) : Option (String × List Char) :=
  let q := match cs with
    | '-' :: t => (['-'], t)
    | _ => (([] : List Char), cs)
  match q.2 with
  | [] => none
  | c :: t =>
    let ip := if c = '0' then some (['0'], t)
      else if isDigitChar c then
        let p := takeDigits t
        some (c :: p.1, p.2)
      else none
    match ip with
    | none => none
    | some (intChars, rest1) =>
      match parseFracPart rest1 with
      | none => none
      | some (fracChars, rest2) =>
        match parseExpPart rest2 with
        | none => none
        | some (expChars, rest3) =>
          some (String.mk (q.1 ++ intChars ++ fracChars ++ expChars), rest3)

mutual

/-- Parse one JSON value at the head of the input. -/
def parseVal : Nat → List Char → Option (Json × List Char)
  | 0, _ => none
  | Nat.succ fuel, cs =>
    match cs with
    | [] => none
    | 'n' :: 'u' :: 'l' :: 'l' :: rest => some (.null, rest)
    | 't' :: 'r' :: 'u' :: 'e' :: rest => some (.boolean true, rest)
    | 'f' :: 'a' :: 'l' :: 's' :: 'e' :: rest => some (.boolean false, rest)
    | '"' :: rest =>
      match parseStrChars (rest.length + 1) rest with
      | some (chars, rest2) => some (.str (String.mk chars), rest2)
      | none => none
    | '[' :: rest =>
      match skipWs rest with
      | ']' :: rest2 => some (.arr [], rest2)
      | cs2 =>
        match parseItems fuel cs2 with
        | some (items, rest2) => some (.arr items, rest2)
        | none => none
    | c :: rest =>
      if c = openBrace then
        match skipWs rest with
        | [] => none
        | c2 :: rest2 =>
          if c2 = closeBrace then some (.obj [], rest2)
          else
            match parseFields fuel (c2 :: rest2) with
            | some (fields, rest3) => some (.obj fields, rest3)
            | none => none
      else if c = '-' || isDigitChar c then
        match parseNumber cs with
        | some (lex, rest2) => some (.num lex, rest2)
        | none => none
      else none

/-- Parse the comma-separated elements of a non-empty JSON array, up to and
including the closing bracket. -/
def parseItems : Nat → List Char → Option (List Json × List Char)
  | 0, _ => none
  | Nat.succ fuel, cs =>
    match parseVal fuel cs with
    | none => none
    | some (v, rest) =>
      match skipWs rest with
      | ',' :: rest2 =>
        match parseItems fuel (skipWs rest2) with
        | some (items, rest3) => some (v :: items, rest3)
        | none => none
      | ']' :: rest2 => some ([v], rest2)
      | _ => none

/-- Parse the comma-separated members of a non-empty JSON object, up to and
including the closing brace. -/
def parseFields : Nat → List Char → Option (List (String × Json) × List Char)
  | 0, _ => none
  | Nat.succ fuel, cs =>
    match cs with
    | '"' :: rest =>
      match parseStrChars (rest.length + 1) rest with
      | none => none
      | some (keyChars, rest2) =>
        match skipWs rest2 with
        | ':' :: rest3 =>
          match parseVal fuel (skipWs rest3) with
          | none => none
          | some (v, rest4) =>
            match skipWs rest4 with
            | ',' :: rest5 =>
              match parseFields fuel (skipWs rest5) with
              | some (fields, rest6) => some ((String.mk keyChars, v) :: fields, rest6)
              | none => none
            | c :: rest5 =>
              if c = closeBrace then some ([(String.mk keyChars, v)], rest5) else none
            | [] => none
        | _ => none
    | _ => none

end

/-- `JSON.parse`: parse one JSON value surrounded by whitespace; anything
else raises a `SyntaxError`, modelled as `none`. -/
def jsonParse (s : String) : Option Json :=
  match parseVal (2 * s.data.length + 4) (skipWs s.data) with
  | some (j, rest) => if skipWs rest = [] then some j else none
  | none => none

/-- JS property access on a parsed JSON object: with duplicate keys the last
one wins. -/
def lookupField (k : String) (fields : List (String × Json)) : Option Json :=
  fields.foldl (fun acc p => if p.1 = k then some p.2 else acc) none

def collectStrings : List Json → Option (List String)
  | [] => some []
  | .str s :: t => (collectStrings t).map (fun l => s :: l)
  | _ :: _ => none

/-- Decode one stored subscription record. Shapes on which the restore loop
of `loadSubscriptions` would raise at runtime (for example a non-array
`addresses` field, on which `new Set` throws) decode to `none`, which the
model routes to the caught-error path of `load`; other runtime type
confusions that the untyped restore loop would let through are approximated
by the same path. -/
def decodeSubData (j : Json) : Option SubscriptionData :=
  match j with
  | .obj fields =>
    match lookupField "addresses" fields with
    | some (.arr elems) =>
      match collectStrings elems with
      | some addrs =>
        let tok : Option (Option String) :=
          match lookupField "expoPushToken" fields with
          | some (.str s) => some (some s)
          | some .null => some none
          | none => some none
          | some _ => none
        let created : Option String :=
          match lookupField "createdAt" fields with
          | some (.str s) => some s
          | _ => none
        match tok, created with
        | some t, some c => some { addresses := addrs, expoPushToken := t, createdAt := c }
        | _, _ => none
      | none => none
    | _ => none
  | _ => none

def decodeEntries : List (String × Json) → Option (List (String × SubscriptionData))
  | [] => some []
  | (k, v) :: t =>
    match decodeSubData v with
    | none => none
    | some sd => (decodeEntries t).map (fun l => (k, sd) :: l)

/-- Decode a parsed snapshot. A top-level `null` makes the property access
`saved.subscriptions` throw, hence `none`; any other non-object top level
yields `undefined`, which the `|| otherBrace` guard turns into zero entries. -/
def decodeSaved (j : Json) : Option SavedSubscriptions :=
  match j with
  | .null => none
  | .obj fields =>
    match lookupField "subscriptions" fields with
    | some (.obj entries) =>
      (decodeEntries entries).map (fun es => { subscriptions := es, lastUpdated := "" })
    | some .null => some { subscriptions := [], lastUpdated := "" }
    | none => some { subscriptions := [], lastUpdated := "" }
    | some _ => none
  | _ => some { subscriptions := [], lastUpdated := "" }

/-- The possible outcomes of reading the snapshot file, the input of
`loadSubscriptions`. -/
inductive FileReadResult where
  | enoent
  | otherIoError
  | content (s : String)

/-- The observable outcome of `loadSubscriptions`. The `fatal` constructor
stands for an error escaping `load` and aborting startup; the catch-all
`try`/`catch` of lines 592-622 never lets that happen: an `ENOENT` is logged
as a fresh start, every other failure (including an undecodable file) is
logged and startup continues. -/
inductive LoadOutcome where
  | freshStart
  | loaded
  | errorLogged
  | fatal
deriving DecidableEq

/-- `loadSubscriptions` (lines 591-623) as a function of the file read
outcome: the restored in-memory state and the logged outcome. -/
def loadSubscriptions (fr : FileReadResult) : ServiceState × LoadOutcome :=
  match fr with
  | .enoent => (emptyState, .freshStart)
  | .otherIoError => (emptyState, .errorLogged)
  | .content s =>
    match jsonParse s with
    | none => (emptyState, .errorLogged)
    | some j =>
      match decodeSaved j with
      | none => (emptyState, .errorLogged)
      | some sv => (loadFromSaved sv, .loaded)

/-! The event-stream client (`CollectorSubscriber`). -/

/-- The envelope of an inbound frame, per the `WebSocketMessage` interface. -/
structure WebSocketMessage where
  event : String
  data : String
deriving DecidableEq

/-- The outcome of delivering one raw frame to the `message` listener. -/
inductive WsHandlerResult where
  | handled (j : Json)
  | thrown

/-- The `message` listener installed by `connect` (lines 49-52): the raw
frame is decoded with `JSON.parse` and handed to `handleMessage`. There is no
`try`/`catch` around the decode, so a frame that is not valid JSON makes
`JSON.parse` throw and the exception escapes the listener. -/
def wsOnMessage (raw : String) : WsHandlerResult :=
  match jsonParse raw with
  | none => .thrown
  | some j => .handled j

def resultThrows (r : WsHandlerResult) : Bool :=
  match r with
  | .thrown => true
  | .handled _ => false

/-- The mutable connection-management state of `CollectorSubscriber`:
whether a socket object is present (`ws` is not null), the reconnect attempt
counter, the reconnect-in-flight flag, whether a reconnect timer is pending,
and whether the terminal give-up message has been logged. -/
structure ClientState where
  wsPresent : Bool
  reconnectAttempts : Nat
  isReconnecting : Bool
  pendingTimer : Bool
  terminalLogged : Bool
deriving DecidableEq

/-- The state of a freshly constructed `CollectorSubscriber` (lines 18-20). -/
def initialClient : ClientState :=
  { wsPresent := false, reconnectAttempts := 0, isReconnecting := false,
    pendingTimer := false, terminalLogged := false }

/-- `connect` (lines 34-67): a new socket object is created. -/
def connectClient (s : ClientState) : ClientState :=
  { s with wsPresent := true }

/-- `attemptReconnect` (lines 82-98): returns the new state and whether a
reconnect was scheduled (`setTimeout` issued). -/
def attemptReconnect (maxAttempts : Nat) (s : ClientState) : ClientState × Bool :=
  if s.isReconnecting || decide (s.reconnectAttempts ≥ maxAttempts) then
    ({ s with
        terminalLogged := s.terminalLogged || decide (s.reconnectAttempts ≥ maxAttempts) },
      false)
  else
    ({ s with
        isReconnecting := true,
        reconnectAttempts := s.reconnectAttempts + 1,
        pendingTimer := true },
      true)

/-- The `open` listener (lines 43-47): reset the attempt counter, clear the
in-flight flag. -/
def onOpen (s : ClientState) : ClientState :=
  { s with reconnectAttempts := 0, isReconnecting := false }

/-- The `close` listener (lines 54-58): drop the socket, attempt a
reconnect. -/
def onClose (maxAttempts : Nat) (s : ClientState) : ClientState × Bool :=
  attemptReconnect maxAttempts { s with wsPresent := false }

/-- The `error` listener (lines 60-66): when a socket is present, close it
(the transport will deliver a separate close event) and clear the in-flight
flag. -/
def onError (s : ClientState) : ClientState :=
  if s.wsPresent then { s with isReconnecting := false } else s

/-- The reconnect timer firing (lines 95-97): call `connect`. -/
def onTimer (s : ClientState) : ClientState :=
  if s.pendingTimer then connectClient { s with pendingTimer := false } else s

inductive ClientEvent where
  | eopen
  | eclose
  | eerror
  | etimer
deriving DecidableEq

/-- One transport event delivered to the client, with the flag telling
whether this event scheduled a reconnect. -/
def clientStep (maxAttempts : Nat) (s : ClientState) : ClientEvent → ClientState × Bool
  | .eopen => (onOpen s, false)
  | .eclose => onClose maxAttempts s
  | .eerror => (onError s, false)
  | .etimer => (onTimer s, false)

/-- Run a sequence of transport events, counting scheduled reconnects. -/
def runClient (maxAttempts : Nat) (s : ClientState) : List ClientEvent → ClientState × Nat
  | [] => (s, 0)
  | e :: t =>
    let p := clientStep maxAttempts s e
    let q := runClient maxAttempts p.1 t
    (q.1, (if p.2 then 1 else 0) + q.2)

/-! The `/subscribe` route (lines 260-336). -/

/-- The reserved all-zero sentinel address, `DUMMY_ADDRESS` (line 293). -/
def dummyAddress : String :=
  String.mk (List.replicate 64 '0')

/-- Modelled from the spec: the validator `isShardusAddress` from
`src/transformAddress.ts` is imported by the service but its source is not
part of the repository snapshot. Per §6 an address is a 64 character account
identifier in hexadecimal form, and per §8 the reserved all-zero sentinel
must pass this validation. -/
def isShardusAddress (s : String) : Bool :=
  decide (s.data.length = 64) &&
    s.data.all (fun c => isDigitChar c || ('a' ≤ c && c ≤ 'f') || ('A' ≤ c && c ≤ 'F'))

inductive SubscribeResponse where
  | okAdded
  | okRemoved
  | errMissingDeviceToken
  | errMissingAddresses
  | errInvalidAddress
  | errInvalidExpoToken
deriving DecidableEq

/-- The `/subscribe` handler (lines 260-336): validate the device token, the
address list and each address format; treat a list containing the sentinel
as an unsubscribe before the push token is even validated; otherwise
validate the Expo push token and add the subscription. `Expo.isExpoPushToken`
is an opaque external predicate, passed as a parameter; a missing field is
modelled as the empty string, which is falsy. -/
def subscribeRoute (isExpoPushToken : String → Bool) (deviceToken : String)
    (addresses : List String) (expoPushToken : String) (now : String)
    (st : ServiceState) : ServiceState × SubscribeResponse :=
  if deviceToken = "" then (st, .errMissingDeviceToken)
  else if addresses = [] then (st, .errMissingAddresses)
  else if addresses.any (fun a => !isShardusAddress a) then (st, .errInvalidAddress)
  else if dummyAddress ∈ addresses then (removeSubscription deviceToken st, .okRemoved)
  else if expoPushToken = "" || !isExpoPushToken expoPushToken then (st, .errInvalidExpoToken)
  else (addSubscription deviceToken addresses expoPushToken now st, .okAdded)

/-! Round-trip lemmas for the snapshot persistence. -/

theorem mapGet_append {V : Type} {k : String} {l1 l2 : List (String × V)} :
    mapGet k (l1 ++ l2) =
      match mapGet k l1 with
      | some v => some v
      | none => mapGet k l2 := by
  induction l1 with
  | nil => simp [mapGet]
  | cons p t ih =>
    obtain ⟨k2, v2⟩ := p
    by_cases h : k2 = k
    · simp [mapGet, h]
    · simp [mapGet, h, ih]

theorem foldl_mapSet_append {V W : Type} (conv : V → W) :
    ∀ (entries : List (String × V)) (acc : List (String × W)),
      (entries.map Prod.fst).Nodup →
      (∀ k, k ∈ entries.map Prod.fst → mapGet k acc = none) →
      entries.foldl (fun m p => mapSet p.1 (conv p.2) m) acc =
        acc ++ entries.map (fun p => (p.1, conv p.2)) := by
  intro entries
  induction entries with
  | nil => intro acc _ _; simp
  | cons p rest ih =>
    intro acc hnd hfresh
    obtain ⟨k0, v0⟩ := p
    simp only [List.map_cons, List.nodup_cons] at hnd
    simp only [List.foldl_cons]
    rw [mapSet_of_absent _ (hfresh k0 (by simp))]
    rw [ih (acc ++ [(k0, conv v0)]) hnd.2]
    · simp
    · intro k hk
      have hne : ¬ k0 = k := by
        intro he
        subst he
        exact hnd.1 hk
      rw [mapGet_append, hfresh k (by simp [hk])]
      simp [mapGet, hne]

theorem entryHas_installT {d e : String} {o : Option (List String)} :
    entryHas (installT d o) e ↔ e = d ∨ entryHas o e := by
  simp [installT, entryHas_some, mem_setAdd, mem_getD_iff_entryHas]

theorem isSome_installT {d : String} {o : Option (List String)} :
    (installT d o).isSome = true := by
  simp [installT]

theorem rebuildIdx_entryHas :
    ∀ (L : List (String × Subscription)) (idx0 : List (String × List String))
      (a e : String),
      entryHas (mapGet a (rebuildIdx L idx0)) e ↔
        entryHas (mapGet a idx0) e ∨ ∃ sub, (e, sub) ∈ L ∧ a ∈ sub.addresses := by
  intro L
  induction L with
  | nil => intro idx0 a e; simp [rebuildIdx]
  | cons p rest ih =>
    intro idx0 a e
    have hstep : rebuildIdx (p :: rest) idx0 =
        rebuildIdx rest (p.2.addresses.foldl (installStep p.1) idx0) := by
      simp [rebuildIdx]
    rw [hstep, ih]
    have hinner : mapGet a (p.2.addresses.foldl (installStep p.1) idx0) =
        if a ∈ p.2.addresses then installT p.1 (mapGet a idx0) else mapGet a idx0 :=
      foldl_entry_get (installT p.1) (installStep p.1)
        (fun idx a2 b => installStep_get) (fun o => installT_idem o) _ _ _
    rw [hinner]
    by_cases ha : a ∈ p.2.addresses
    · rw [if_pos ha, entryHas_installT]
      constructor
      · rintro ((rfl | h1) | ⟨sub, hs1, hs2⟩)
        · exact Or.inr ⟨p.2, List.mem_cons_self p rest, ha⟩
        · exact Or.inl h1
        · exact Or.inr ⟨sub, List.mem_cons_of_mem p hs1, hs2⟩
      · rintro (h1 | ⟨sub, hs1, hs2⟩)
        · exact Or.inl (Or.inr h1)
        · rcases List.mem_cons.mp hs1 with h2 | h2
          · have he : e = p.1 := congrArg Prod.fst h2
            exact Or.inl (Or.inl he)
          · exact Or.inr ⟨sub, h2, hs2⟩
    · rw [if_neg ha]
      constructor
      · rintro (h1 | ⟨sub, hs1, hs2⟩)
        · exact Or.inl h1
        · exact Or.inr ⟨sub, List.mem_cons_of_mem p hs1, hs2⟩
      · rintro (h1 | ⟨sub, hs1, hs2⟩)
        · exact Or.inl h1
        · rcases List.mem_cons.mp hs1 with h2 | h2
          · have hsub : sub = p.2 := congrArg Prod.snd h2
            subst hsub
            exact absurd hs2 ha
          · exact Or.inr ⟨sub, h2, hs2⟩

theorem rebuildIdx_isSome :
    ∀ (L : List (String × Subscription)) (idx0 : List (String × List String))
      (a : String),
      (mapGet a (rebuildIdx L idx0)).isSome = true ↔
        (mapGet a idx0).isSome = true ∨ ∃ p, p ∈ L ∧ a ∈ p.2.addresses := by
  intro L
  induction L with
  | nil => intro idx0 a; simp [rebuildIdx]
  | cons p rest ih =>
    intro idx0 a
    have hstep : rebuildIdx (p :: rest) idx0 =
        rebuildIdx rest (p.2.addresses.foldl (installStep p.1) idx0) := by
      simp [rebuildIdx]
    rw [hstep, ih]
    have hinner : mapGet a (p.2.addresses.foldl (installStep p.1) idx0) =
        if a ∈ p.2.addresses then installT p.1 (mapGet a idx0) else mapGet a idx0 :=
      foldl_entry_get (installT p.1) (installStep p.1)
        (fun idx a2 b => installStep_get) (fun o => installT_idem o) _ _ _
    rw [hinner]
    by_cases ha : a ∈ p.2.addresses
    · rw [if_pos ha]
      simp only [isSome_installT, true_iff, true_or]
      exact Or.inr ⟨p, List.mem_cons_self p rest, ha⟩
    · rw [if_neg ha]
      constructor
      · rintro (h1 | ⟨q, hq1, hq2⟩)
        · exact Or.inl h1
        · exact Or.inr ⟨q, List.mem_cons_of_mem p hq1, hq2⟩
      · rintro (h1 | ⟨q, hq1, hq2⟩)
        · exact Or.inl h1
        · rcases List.mem_cons.mp hq1 with h2 | h2
          · subst h2
            exact absurd hq2 ha
          · exact Or.inr ⟨q, h2, hq2⟩

/-- Restoring the snapshot written by `saveSubscriptions` reproduces the
subscription map exactly, entry for entry. -/
theorem load_save_subs {st : ServiceState} (hInv : Inv st) (now : String) :
    (loadFromSaved (saveSubscriptions now st)).subscriptions = st.subscriptions := by
  have hkeys : ((saveSubscriptions now st).subscriptions.map Prod.fst) =
      st.subscriptions.map Prod.fst := by
    simp [saveSubscriptions, List.map_map]
  have h1 : (loadFromSaved (saveSubscriptions now st)).subscriptions =
      (saveSubscriptions now st).subscriptions.map (fun p => (p.1, restoreSub p.2)) := by
    simp only [loadFromSaved]
    rw [foldl_mapSet_append restoreSub _ [] (by rw [hkeys]; exact hInv.subsKeysNodup)
      (fun k _ => by simp [mapGet])]
    simp
  rw [h1]
  simp only [saveSubscriptions, List.map_map]
  have h2 : ∀ p ∈ st.subscriptions,
      ((fun p => (p.1, restoreSub p.2)) ∘ fun p =>
        (p.1, ({ addresses := p.2.addresses, expoPushToken := p.2.expoPushToken,
                 createdAt := p.2.createdAt } : SubscriptionData))) p = p := by
    intro p hp
    obtain ⟨k0, sub0⟩ := p
    have hget : mapGet k0 st.subscriptions = some sub0 :=
      mapGet_eq_some_of_mem hInv.subsKeysNodup hp
    have hnd : sub0.addresses.Nodup := hInv.subAddrNodup k0 sub0 hget
    simp [Function.comp, restoreSub, jsSetOfList_eq_self hnd]
  rw [List.map_congr_left h2]
  simp

/-! Characterization of the inner loop of `unlinkOldDevices` over a full
claimant list, used for the reassignment analysis. -/

theorem ufold_subs_get {d tok a : String} :
    ∀ (l : List String), l.Nodup → ∀ (st : ServiceState) (e : String),
      mapGet e ((l.foldl (unlinkDev d tok a) st)).subscriptions =
        if e ∈ l then stripSub d tok a st e else mapGet e st.subscriptions := by
  intro l
  induction l with
  | nil => intro _ st e; simp
  | cons od rest ih =>
    intro hnd st e
    simp only [List.nodup_cons] at hnd
    simp only [List.foldl_cons]
    rw [ih hnd.2]
    by_cases he : e ∈ rest
    · rw [if_pos he, if_pos (List.mem_cons_of_mem od he)]
      have hne : ¬ e = od := fun hc => hnd.1 (hc ▸ he)
      exact stripSub_congr (by rw [unlinkDev_subs_get, if_neg hne])
    · rw [if_neg he, unlinkDev_subs_get]
      by_cases h0 : e = od
      · rw [if_pos h0, if_pos (List.mem_cons.mpr (Or.inl h0))]
        rw [h0]
      · rw [if_neg h0, if_neg (by simp [List.mem_cons, h0, he])]

theorem ufold_idx_other {d tok a : String} {b : String} (hb : ¬ a = b) :
    ∀ (l : List String) (st : ServiceState),
      mapGet b ((l.foldl (unlinkDev d tok a) st)).addressToDevices =
        mapGet b st.addressToDevices := by
  intro l
  induction l with
  | nil => intro st; simp
  | cons od rest ih =>
    intro st
    simp only [List.foldl_cons]
    rw [ih, unlinkDev_idx_get]
    rw [if_neg (fun hc => hb hc.1)]

theorem ufold_idx_none {d tok a : String} :
    ∀ (l : List String) (st : ServiceState),
      mapGet a st.addressToDevices = none →
      mapGet a ((l.foldl (unlinkDev d tok a) st)).addressToDevices = none := by
  intro l
  induction l with
  | nil => intro st h; simpa
  | cons od rest ih =>
    intro st h
    simp only [List.foldl_cons]
    apply ih
    rw [unlinkDev_idx_get]
    by_cases hm : a = a ∧ tokenMatches d tok st od = true
    · rw [if_pos hm, h]
      rfl
    · rw [if_neg hm]
      exact h

theorem ufold_idx_a {d tok a : String} :
    ∀ (l : List String), l.Nodup → ∀ (st : ServiceState) (devs : List String),
      mapGet a st.addressToDevices = some devs → devs ≠ [] →
      mapGet a ((l.foldl (unlinkDev d tok a) st)).addressToDevices =
        (if devs.filter (fun e => !(decide (e ∈ l) && tokenMatches d tok st e)) = []
         then none
         else some (devs.filter (fun e => !(decide (e ∈ l) && tokenMatches d tok st e)))) := by
  intro l
  induction l with
  | nil =>
    intro _ st devs hdevs hne
    have : devs.filter (fun e => !(decide (e ∈ ([] : List String)) && tokenMatches d tok st e)) =
        devs := by
      apply List.filter_eq_self.mpr
      intro e _
      simp
    simp only [List.foldl_nil, this]
    rw [if_neg hne]
    exact hdevs
  | cons od rest ih =>
    intro hnd st devs hdevs hne
    simp only [List.nodup_cons] at hnd
    simp only [List.foldl_cons]
    by_cases hm : tokenMatches d tok st od = true
    · have hstep : mapGet a (unlinkDev d tok a st od).addressToDevices =
          pruneDev od (some devs) := by
        rw [unlinkDev_idx_get, if_pos ⟨rfl, hm⟩, hdevs]
      have hfeq : devs.filter (fun e => !(decide (e ∈ od :: rest) && tokenMatches d tok st e)) =
          (setDelete od devs).filter
            (fun e => !(decide (e ∈ rest) && tokenMatches d tok st e)) := by
        rw [setDelete, List.filter_filter]
        apply List.filter_congr
        intro e _
        by_cases h0 : e = od
        · subst h0
          simp [hm, List.mem_cons]
        · simp [List.mem_cons, h0, bne_iff_ne]
      by_cases h4 : setDelete od devs = []
      · have hnone : mapGet a (unlinkDev d tok a st od).addressToDevices = none := by
          rw [hstep]
          simp [pruneDev, h4]
        rw [ufold_idx_none rest _ hnone]
        rw [hfeq, h4]
        simp
      · have hsome : mapGet a (unlinkDev d tok a st od).addressToDevices =
            some (setDelete od devs) := by
          rw [hstep]
          simp [pruneDev, h4]
        rw [ih hnd.2 _ (setDelete od devs) hsome h4]
        have hcong : (setDelete od devs).filter
              (fun e => !(decide (e ∈ rest) && tokenMatches d tok (unlinkDev d tok a st od) e)) =
            (setDelete od devs).filter
              (fun e => !(decide (e ∈ rest) && tokenMatches d tok st e)) := by
          apply List.filter_congr
          intro e he
          have hne : ¬ e = od := (mem_setDelete.mp he).2
          have hsubs : mapGet e (unlinkDev d tok a st od).subscriptions =
              mapGet e st.subscriptions := by
            rw [unlinkDev_subs_get, if_neg hne]
          rw [tokenMatches_congr hsubs]
        rw [hcong, ← hfeq]
    · have hm2 : tokenMatches d tok st od = false := eq_false_of_ne_true hm
      rw [unlinkDev_of_not_matches hm2]
      rw [ih hnd.2 st devs hdevs hne]
      have hfeq : devs.filter (fun e => !(decide (e ∈ rest) && tokenMatches d tok st e)) =
          devs.filter (fun e => !(decide (e ∈ od :: rest) && tokenMatches d tok st e)) := by
        apply List.filter_congr
        intro e _
        by_cases h0 : e = od
        · subst h0
          simp [hm2, List.mem_cons]
        · simp [List.mem_cons, h0]
      rw [hfeq]

/-! Lemmas for the reconnect budget of the event-stream client. -/

theorem clientStep_eerror_frame (maxAttempts : Nat) (s : ClientState) :
    (clientStep maxAttempts s ClientEvent.eerror).1.reconnectAttempts = s.reconnectAttempts ∧
    (clientStep maxAttempts s ClientEvent.eerror).2 = false := by
  simp only [clientStep, onError]
  cases hw : s.wsPresent <;> simp

theorem clientStep_etimer_frame (maxAttempts : Nat) (s : ClientState) :
    (clientStep maxAttempts s ClientEvent.etimer).1.reconnectAttempts = s.reconnectAttempts ∧
    (clientStep maxAttempts s ClientEvent.etimer).2 = false := by
  simp only [clientStep, onTimer, connectClient]
  cases hw : s.pendingTimer <;> simp

/-- Along any stretch of transport events with no successful open, the number
of scheduled reconnects is bounded by the remaining attempt budget. -/
theorem runClient_count_le (maxAttempts : Nat) :
    ∀ (trace : List ClientEvent) (s : ClientState), ClientEvent.eopen ∉ trace →
      (runClient maxAttempts s trace).2 ≤ maxAttempts - s.reconnectAttempts := by
  intro trace
  induction trace with
  | nil => intro s _; simp [runClient]
  | cons e t ih =>
    intro s hopen
    have hopen2 : ClientEvent.eopen ∉ t := fun hc => hopen (List.mem_cons_of_mem e hc)
    cases e with
    | eopen => exact absurd (List.mem_cons_self _ t) hopen
    | eclose =>
      by_cases hc : (s.isReconnecting || decide (s.reconnectAttempts ≥ maxAttempts)) = true
      · have hstep : clientStep maxAttempts s ClientEvent.eclose =
            (⟨false, s.reconnectAttempts, s.isReconnecting, s.pendingTimer,
              s.terminalLogged || decide (s.reconnectAttempts ≥ maxAttempts)⟩, false) := by
          simp [clientStep, onClose, attemptReconnect, hc]
        simp only [runClient, hstep]
        have := ih ⟨false, s.reconnectAttempts, s.isReconnecting, s.pendingTimer,
          s.terminalLogged || decide (s.reconnectAttempts ≥ maxAttempts)⟩ hopen2
        simpa using this
      · have hlt : s.reconnectAttempts < maxAttempts := by
          simp only [Bool.or_eq_true, decide_eq_true_eq] at hc
          push_neg at hc
          omega
        have hstep : clientStep maxAttempts s ClientEvent.eclose =
            (⟨false, s.reconnectAttempts + 1, true, true, s.terminalLogged⟩, true) := by
          simp [clientStep, onClose, attemptReconnect, hc]
        simp only [runClient, hstep]
        have := ih ⟨false, s.reconnectAttempts + 1, true, true, s.terminalLogged⟩ hopen2
        simp only at this ⊢
        simp
        omega
    | eerror =>
      have hf := clientStep_eerror_frame maxAttempts s
      simp only [runClient]
      rw [hf.2]
      have := ih (clientStep maxAttempts s ClientEvent.eerror).1 hopen2
      rw [hf.1] at this
      simpa using this
    | etimer =>
      have hf := clientStep_etimer_frame maxAttempts s
      simp only [runClient]
      rw [hf.2]
      have := ih (clientStep maxAttempts s ClientEvent.etimer).1 hopen2
      rw [hf.1] at this
      simpa using this

/-- Once the attempt budget is exhausted with no socket and no pending timer,
events other than a successful open never schedule another reconnect and the
client stays disconnected. -/
theorem runClient_terminal (maxAttempts : Nat) :
    ∀ (trace : List ClientEvent) (s : ClientState), ClientEvent.eopen ∉ trace →
      s.reconnectAttempts ≥ maxAttempts → s.pendingTimer = false → s.wsPresent = false →
      (runClient maxAttempts s trace).2 = 0 ∧
      (runClient maxAttempts s trace).1.wsPresent = false := by
  intro trace
  induction trace with
  | nil =>
    intro s _ _ _ hw
    simpa [runClient]
  | cons e t ih =>
    intro s hopen hmax hpend hw
    have hopen2 : ClientEvent.eopen ∉ t := fun hc => hopen (List.mem_cons_of_mem e hc)
    cases e with
    | eopen => exact absurd (List.mem_cons_self _ t) hopen
    | eclose =>
      have hstep : clientStep maxAttempts s ClientEvent.eclose =
          (⟨false, s.reconnectAttempts, s.isReconnecting, s.pendingTimer, true⟩, false) := by
        simp [clientStep, onClose, attemptReconnect, hmax]
      simp only [runClient, hstep]
      have := ih ⟨false, s.reconnectAttempts, s.isReconnecting, s.pendingTimer, true⟩
        hopen2 hmax hpend rfl
      simpa using this
    | eerror =>
      have hstep : clientStep maxAttempts s ClientEvent.eerror = (s, false) := by
        simp [clientStep, onError, hw]
      simp only [runClient, hstep]
      have := ih s hopen2 hmax hpend hw
      simpa using this
    | etimer =>
      have hstep : clientStep maxAttempts s ClientEvent.etimer = (s, false) := by
        simp [clientStep, onTimer, hpend]
      simp only [runClient, hstep]
      have := ih s hopen2 hmax hpend hw
      simpa using this

/-! Example states used by the witnesses and counterexamples. -/

def exSt1 : ServiceState :=
  addSubscription "dev1" ["0xaa"] "tokA" "t1" emptyState

def exStA : ServiceState :=
  addSubscription "devA" ["a1"] "p" "t1" emptyState

def exStAC : ServiceState :=
  addSubscription "devC" ["a1"] "q" "t2" exStA

def exStACB : ServiceState :=
  addSubscription "devB" ["a1"] "p" "t3" exStAC

theorem exSt1_reachable : Reachable exSt1 :=
  Reachable.add emptyState "dev1" ["0xaa"] "tokA" "t1" (by simp) Reachable.empty

theorem exStA_reachable : Reachable exStA :=
  Reachable.add emptyState "devA" ["a1"] "p" "t1" (by simp) Reachable.empty

theorem exStAC_reachable : Reachable exStAC :=
  Reachable.add exStA "devC" ["a1"] "q" "t2" (by simp) exStA_reachable

/-! The claims. -/

/-- C1: for every sequence of `addSubscription` calls with non-empty address
lists and `removeSubscription` calls starting from the empty registry, after
each call the `addressToDevices` index is exactly the inverse of the
`subscriptions` map, no index entry is an empty set, and no subscription has
an empty address set. -/
theorem c1_index_inverse_invariant (st : ServiceState) (h : Reachable st) :
    (∀ a d, (∃ devs, mapGet a st.addressToDevices = some devs ∧ d ∈ devs) ↔
      (∃ sub, mapGet d st.subscriptions = some sub ∧ a ∈ sub.addresses)) ∧
    (∀ a devs, mapGet a st.addressToDevices = some devs → devs ≠ []) ∧
    (∀ d sub, mapGet d st.subscriptions = some sub → sub.addresses ≠ []) := by
  have hInv := inv_reachable h
  exact ⟨fun a d => hInv.inverse a d, hInv.idxNonempty, hInv.subNonempty⟩

/-- C1 witness: the invariant instantiated on a concrete one-call state. -/
theorem c1_witness : Reachable exSt1 ∧
    ((∃ devs, mapGet "0xaa" exSt1.addressToDevices = some devs ∧ "dev1" ∈ devs) ↔
      (∃ sub, mapGet "dev1" exSt1.subscriptions = some sub ∧ "0xaa" ∈ sub.addresses)) :=
  ⟨exSt1_reachable, (c1_index_inverse_invariant exSt1 exSt1_reachable).1 "0xaa" "dev1"⟩

/-- C2 counterexample: after `addSubscription("dev1", ["0xAA"], "tokA")` the
subscription of `dev1` contains the lower-cased address `0xaa`, yet
`getDevicesForAddress("0xAA")` returns the empty set because the read path
does not lower-case its argument, contradicting the claim that it returns
the set of devices subscribed to the lower-cased form. -/
theorem c2_counterexample :
    Reachable (addSubscription "dev1" ["0xAA"] "tokA" "t1" emptyState) ∧
    (∃ sub, mapGet "dev1"
        (addSubscription "dev1" ["0xAA"] "tokA" "t1" emptyState).subscriptions = some sub ∧
      toLowerStr "0xAA" ∈ sub.addresses) ∧
    getDevicesForAddress "0xAA" (addSubscription "dev1" ["0xAA"] "tokA" "t1" emptyState) = [] := by
  refine ⟨Reachable.add emptyState "dev1" ["0xAA"] "tokA" "t1" (by simp) Reachable.empty, ?_, ?_⟩
  · exact ⟨{ addresses := ["0xaa"], expoPushToken := some "tokA", createdAt := "t1" },
      by decide, by decide⟩
  · decide

/-- C2 amended: `getDevicesForAddress` applies no normalization. For every
reachable registry state and every address string, it returns exactly the
devices whose subscription contains that string verbatim; a query that
differs from its lower-cased form can therefore miss subscriptions stored
under the lower-cased form. -/
theorem c2_amended_exact_lookup (st : ServiceState) (h : Reachable st) (a d : String) :
    d ∈ getDevicesForAddress a st ↔
      (∃ sub, mapGet d st.subscriptions = some sub ∧ a ∈ sub.addresses) :=
  Iff.trans mem_getD_iff_entryHas ((inv_reachable h).inverse a d)

/-- C2 witness: the amended lookup characterization on a concrete state. -/
theorem c2_witness : Reachable exSt1 ∧
    ("dev1" ∈ getDevicesForAddress "0xaa" exSt1 ↔
      (∃ sub, mapGet "dev1" exSt1.subscriptions = some sub ∧ "0xaa" ∈ sub.addresses)) :=
  ⟨exSt1_reachable, c2_amended_exact_lookup exSt1 exSt1_reachable "0xaa" "dev1"⟩

/-- C3: the message listener has no try/catch around `JSON.parse`, so the
raw frame `x`, which is not decodable as the envelope, makes the handler
throw instead of being dropped with a diagnostic, while a well-formed frame
is handled. This evaluates the code at the failing input of the claim. -/
theorem c3_unguarded_parse_throws :
    resultThrows (wsOnMessage "x") = true ∧
    resultThrows (wsOnMessage "\x7b\"event\":\"a\",\"data\":\"b\"\x7d") = false := by
  constructor
  · decide
  · decide

/-- C5: a second `addSubscription` for a device that already holds a
subscription is a full replace: afterwards the subscription of the device
contains exactly the normalized new addresses with the new push token, and
no address of the prior set that is absent from the new set resolves to the
device any more. -/
theorem c5_full_replace (st : ServiceState) (h : Reachable st)
    (D tokNew now : String) (newAddrs : List String) (oldSub : Subscription)
    (hold : mapGet D st.subscriptions = some oldSub) :
    (∃ sub2, mapGet D (addSubscription D newAddrs tokNew now st).subscriptions = some sub2 ∧
      sub2.expoPushToken = some tokNew ∧
      (∀ x, x ∈ sub2.addresses ↔ x ∈ newAddrs.map toLowerStr)) ∧
    (∀ a, a ∈ oldSub.addresses → a ∉ newAddrs.map toLowerStr →
      D ∉ getDevicesForAddress a (addSubscription D newAddrs tokNew now st)) := by
  have hInv := inv_reachable h
  have hinv2 : Inv (removeSubscription D (unlinkOldDevices D newAddrs tokNew st)) :=
    inv_removeSubscription (inv_unlinkOldDevices hInv)
  constructor
  · refine ⟨⟨jsSetOfList (newAddrs.map toLowerStr), some tokNew, now⟩, ?_, rfl, ?_⟩
    · rw [addSubscription_subs_get D, if_pos rfl]
    · intro x
      exact mem_jsSetOfList
  · intro a hmem hnot hcon
    have hidx : mapGet a (addSubscription D newAddrs tokNew now st).addressToDevices =
        mapGet a (removeSubscription D (unlinkOldDevices D newAddrs tokNew st)).addressToDevices := by
      rw [addSubscription_idx_get a, if_neg (fun hc => hnot (mem_jsSetOfList.mp hc))]
    have hE2 : entryHas
        (mapGet a (removeSubscription D (unlinkOldDevices D newAddrs tokNew st)).addressToDevices)
        D := by
      rw [← hidx]
      exact mem_getD_iff_entryHas.mp hcon
    obtain ⟨sub2, hs2, _⟩ := (hinv2.inverse a D).mp hE2
    rw [removeSubscription_subs_get, if_pos rfl] at hs2
    exact Option.noConfusion hs2

/-- C5 witness: replacing the subscription of a concrete device. -/
theorem c5_witness : Reachable exSt1 ∧
    mapGet "dev1" exSt1.subscriptions =
      some { addresses := ["0xaa"], expoPushToken := some "tokA", createdAt := "t1" } ∧
    (∃ sub2, mapGet "dev1" (addSubscription "dev1" ["0xbb"] "tokB" "t2" exSt1).subscriptions =
        some sub2 ∧ sub2.expoPushToken = some "tokB" ∧
      (∀ x, x ∈ sub2.addresses ↔ x ∈ ["0xbb"].map toLowerStr)) := by
  refine ⟨exSt1_reachable, by decide, ?_⟩
  exact (c5_full_replace exSt1 exSt1_reachable "dev1" "tokB" "t2" ["0xbb"]
    { addresses := ["0xaa"], expoPushToken := some "tokA", createdAt := "t1" }
    (by decide)).1

/-- C6 counterexample: a present but undecodable snapshot file is NOT
surfaced as a fatal startup condition: the parse error is caught, logged and
startup continues from the empty state. -/
theorem c6_counterexample :
    loadSubscriptions (FileReadResult.content "garbage") =
      (emptyState, LoadOutcome.errorLogged) ∧
    (loadSubscriptions (FileReadResult.content "garbage")).2 ≠ LoadOutcome.fatal := by
  constructor
  · decide
  · decide

/-- C6 amended: an absent snapshot file yields the empty registry state and
is not an error; a present but undecodable snapshot is also not fatal: the
error is caught and logged and the service starts with nothing restored; no
file read outcome whatsoever aborts startup. -/
theorem c6_amended_load_error_handling :
    loadSubscriptions FileReadResult.enoent = (emptyState, LoadOutcome.freshStart) ∧
    (∀ s, jsonParse s = none →
      loadSubscriptions (FileReadResult.content s) = (emptyState, LoadOutcome.errorLogged)) ∧
    (∀ fr, (loadSubscriptions fr).2 ≠ LoadOutcome.fatal) := by
  refine ⟨rfl, ?_, ?_⟩
  · intro s hs
    simp [loadSubscriptions, hs]
  · intro fr
    cases fr with
    | enoent => simp [loadSubscriptions]
    | otherIoError => simp [loadSubscriptions]
    | content s =>
      simp only [loadSubscriptions]
      cases hj : jsonParse s with
      | none => simp
      | some j =>
        cases hd : decodeSaved j with
        | none => simp [hd]
        | some sv => simp [hd]

/-- C6 witness: the amended load behavior applied to a concrete undecodable
file content. -/
theorem c6_witness :
    jsonParse "\x7bnot json" = none ∧
    loadSubscriptions (FileReadResult.content "\x7bnot json") =
      (emptyState, LoadOutcome.errorLogged) := by
  have hp : jsonParse "\x7bnot json" = none :=
    Option.isNone_iff_eq_none.mp (by decide)
  exact ⟨hp, c6_amended_load_error_handling.2.1 "\x7bnot json" hp⟩

/-- C9: a subscribe request with a well-formed device token and address list
that contains the reserved all-zero sentinel removes the existing
subscription of the device, regardless of the push token previously stored
(any reachable state) and of the push token supplied (any string, any
external Expo validator); the request succeeds, and the device subsequently
resolves to no addresses at all. -/
theorem c9_sentinel_unsubscribe (st : ServiceState) (h : Reachable st)
    (isExpoPushToken : String → Bool) (deviceToken expoPushToken now : String)
    (addresses : List String)
    (hdev : ¬ deviceToken = "")
    (hvalid : ∀ a, a ∈ addresses → isShardusAddress a = true)
    (hdummy : dummyAddress ∈ addresses) :
    subscribeRoute isExpoPushToken deviceToken addresses expoPushToken now st =
      (removeSubscription deviceToken st, SubscribeResponse.okRemoved) ∧
    mapGet deviceToken (removeSubscription deviceToken st).subscriptions = none ∧
    (∀ a, deviceToken ∉ getDevicesForAddress a (removeSubscription deviceToken st)) := by
  have hInvR : Inv (removeSubscription deviceToken st) :=
    inv_removeSubscription (inv_reachable h)
  refine ⟨?_, ?_, ?_⟩
  · unfold subscribeRoute
    rw [if_neg hdev, if_neg (List.ne_nil_of_mem hdummy)]
    have hany : ¬ (addresses.any (fun a => !isShardusAddress a)) = true := by
      simp only [List.any_eq_true, Bool.not_eq_true]
      rintro ⟨a, ha, ha2⟩
      rw [hvalid a ha] at ha2
      exact Bool.noConfusion ha2
    rw [if_neg hany, if_pos hdummy]
  · rw [removeSubscription_subs_get]
    simp
  · intro a hcon
    have hE := mem_getD_iff_entryHas.mp hcon
    obtain ⟨sub, hsub, _⟩ := (hInvR.inverse a deviceToken).mp hE
    rw [removeSubscription_subs_get, if_pos rfl] at hsub
    exact Option.noConfusion hsub

/-- C9 witness: the sentinel request on a concrete subscribed state. -/
theorem c9_witness :
    Reachable exSt1 ∧
    ("dev1" : String) ≠ "" ∧
    isShardusAddress dummyAddress = true ∧
    subscribeRoute (fun _ => false) "dev1" [dummyAddress] "whatever" "t9" exSt1 =
      (removeSubscription "dev1" exSt1, SubscribeResponse.okRemoved) := by
  refine ⟨exSt1_reachable, by decide, by decide, ?_⟩
  exact (c9_sentinel_unsubscribe exSt1 exSt1_reachable (fun _ => false) "dev1" "whatever" "t9"
    [dummyAddress] (by decide) (by intro a ha; simp at ha; rw [ha]; decide) (by simp)).1

/-- C10: frame property of `removeSubscription`: every other device keeps
its subscription unchanged, index entries of addresses outside the removed
subscription are untouched, entries of its addresses only lose the device
(and are pruned when they empty), a device without a subscription makes the
call a no-op, and the operation is idempotent. -/
theorem c10_remove_frame (st : ServiceState) (deviceToken : String) :
    (∀ e, e ≠ deviceToken →
      mapGet e (removeSubscription deviceToken st).subscriptions =
        mapGet e st.subscriptions) ∧
    (∀ sub, mapGet deviceToken st.subscriptions = some sub →
      (∀ a, a ∉ sub.addresses →
        mapGet a (removeSubscription deviceToken st).addressToDevices =
          mapGet a st.addressToDevices) ∧
      (∀ a, a ∈ sub.addresses →
        mapGet a (removeSubscription deviceToken st).addressToDevices =
          pruneDev deviceToken (mapGet a st.addressToDevices))) ∧
    (mapGet deviceToken st.subscriptions = none → removeSubscription deviceToken st = st) ∧
    removeSubscription deviceToken (removeSubscription deviceToken st) =
      removeSubscription deviceToken st := by
  refine ⟨?_, ?_, removeSubscription_of_none, ?_⟩
  · intro e he
    rw [removeSubscription_subs_get, if_neg he]
  · intro sub hsub
    constructor
    · intro a ha
      rw [removeSubscription_idx_get hsub, if_neg ha]
    · intro a ha
      rw [removeSubscription_idx_get hsub, if_pos ha]
  · apply removeSubscription_of_none
    rw [removeSubscription_subs_get]
    simp

/-- C4 counterexample: all premises of the claim hold, with a third device
devC claiming the same address under a DIFFERENT push token; after
`addSubscription("devB", ["a1"], "p")` the lookup returns both devC and
devB, not devB only. -/
theorem c4_counterexample :
    Reachable exStAC ∧
    (∃ sub, mapGet "devA" exStAC.subscriptions = some sub ∧
      sub.expoPushToken = some "p" ∧ toLowerStr "a1" ∈ sub.addresses) ∧
    ¬ ("devB" : String) = "devA" ∧
    exStACB = addSubscription "devB" ["a1"] "p" "t3" exStAC ∧
    getDevicesForAddress (toLowerStr "a1") exStACB = ["devC", "devB"] ∧
    ¬ getDevicesForAddress (toLowerStr "a1") exStACB = ["devB"] := by
  refine ⟨exStAC_reachable, ?_, by decide, rfl, by decide, by decide⟩
  exact ⟨⟨["a1"], some "p", "t1"⟩, by decide, by decide, by decide⟩

/-- C4 amended: reassignment. If device A holds address A1 with push token P
and device B is different, then `addSubscription(B, [A1], P)` strips the
normalized A1 from the subscription of A (deleting the subscription outright
when A1 was its only address and keeping every other address otherwise,
which the exact formula in the first conjunct expresses), B claims A1 and A
does not; the lookup on the normalized A1 returns exactly the singleton B
when every other claimant of A1 carried push token P (in particular when A
was the only claimant), rather than in general as the claim stated. -/
theorem c4_amended_reassignment (st : ServiceState) (h : Reachable st)
    (A B P now rawA1 : String) (subA : Subscription)
    (hAB : ¬ B = A)
    (hsubA : mapGet A st.subscriptions = some subA)
    (htokA : subA.expoPushToken = some P)
    (ha1 : toLowerStr rawA1 ∈ subA.addresses) :
    mapGet A (addSubscription B [rawA1] P now st).subscriptions =
      (if setDelete (toLowerStr rawA1) subA.addresses = [] then none
       else some { subA with addresses := setDelete (toLowerStr rawA1) subA.addresses }) ∧
    (∀ sub2, mapGet A (addSubscription B [rawA1] P now st).subscriptions = some sub2 →
      toLowerStr rawA1 ∉ sub2.addresses) ∧
    B ∈ getDevicesForAddress (toLowerStr rawA1) (addSubscription B [rawA1] P now st) ∧
    A ∉ getDevicesForAddress (toLowerStr rawA1) (addSubscription B [rawA1] P now st) ∧
    ((∀ e, e ∈ getDevicesForAddress (toLowerStr rawA1) st → ¬ e = B →
        ∃ sube, mapGet e st.subscriptions = some sube ∧ sube.expoPushToken = some P) →
      getDevicesForAddress (toLowerStr rawA1) (addSubscription B [rawA1] P now st) = [B]) := by
  have hInv := inv_reachable h
  have hentry : entryHas (mapGet (toLowerStr rawA1) st.addressToDevices) A :=
    (hInv.inverse (toLowerStr rawA1) A).mpr ⟨subA, hsubA, ha1⟩
  obtain ⟨devs0, hdevs0, hAmem⟩ := hentry
  have hnd0 : devs0.Nodup := hInv.idxNodup (toLowerStr rawA1) devs0 hdevs0
  have hinvU : Inv (unlinkOldDevices B [rawA1] P st) := inv_unlinkOldDevices hInv
  have hinvR : Inv (removeSubscription B (unlinkOldDevices B [rawA1] P st)) :=
    inv_removeSubscription hinvU
  have hufold : unlinkOldDevices B [rawA1] P st =
      devs0.foldl (unlinkDev B P (toLowerStr rawA1)) st := by
    unfold unlinkOldDevices unlinkOne
    simp only [List.map_cons, List.map_nil, List.foldl_cons, List.foldl_nil]
    rw [hdevs0]
  have husubs : ∀ e, mapGet e (unlinkOldDevices B [rawA1] P st).subscriptions =
      if e ∈ devs0 then stripSub B P (toLowerStr rawA1) st e
      else mapGet e st.subscriptions := by
    intro e
    rw [hufold]
    exact ufold_subs_get devs0 hnd0 st e
  have hAu : mapGet A (unlinkOldDevices B [rawA1] P st).subscriptions =
      (if setDelete (toLowerStr rawA1) subA.addresses = [] then none
       else some { subA with addresses := setDelete (toLowerStr rawA1) subA.addresses }) := by
    rw [husubs A, if_pos hAmem,
      stripSub_of_matches (fun hc => hAB hc.symm) hsubA htokA]
  have hAfin : mapGet A (addSubscription B [rawA1] P now st).subscriptions =
      (if setDelete (toLowerStr rawA1) subA.addresses = [] then none
       else some { subA with addresses := setDelete (toLowerStr rawA1) subA.addresses }) := by
    rw [addSubscription_subs_get A, if_neg hAB, removeSubscription_subs_get,
      if_neg (fun hc : A = B => hAB hc.symm), hAu]
  have ha1A : toLowerStr rawA1 ∈ jsSetOfList ([rawA1].map toLowerStr) := by
    rw [mem_jsSetOfList]
    simp
  have hgfin : getDevicesForAddress (toLowerStr rawA1) (addSubscription B [rawA1] P now st) =
      setAdd B ((mapGet (toLowerStr rawA1)
        (removeSubscription B (unlinkOldDevices B [rawA1] P st)).addressToDevices).getD []) := by
    unfold getDevicesForAddress
    rw [addSubscription_idx_get (toLowerStr rawA1), if_pos ha1A]
    simp [installT]
  refine ⟨hAfin, ?_, ?_, ?_, ?_⟩
  · intro sub2 hs2
    rw [hAfin] at hs2
    by_cases h4 : setDelete (toLowerStr rawA1) subA.addresses = []
    · rw [if_pos h4] at hs2
      exact Option.noConfusion hs2
    · rw [if_neg h4] at hs2
      injection hs2 with h6
      rw [← h6]
      exact not_mem_setDelete
  · rw [hgfin]
    exact mem_setAdd.mpr (Or.inl rfl)
  · rw [hgfin]
    intro hcon
    rcases mem_setAdd.mp hcon with h5 | h5
    · exact hAB h5.symm
    · have hE : entryHas (mapGet (toLowerStr rawA1)
          (removeSubscription B (unlinkOldDevices B [rawA1] P st)).addressToDevices) A :=
        mem_getD_iff_entryHas.mp h5
      obtain ⟨sub2, hs2, hmem2⟩ := (hinvR.inverse (toLowerStr rawA1) A).mp hE
      rw [removeSubscription_subs_get, if_neg (fun hc : A = B => hAB hc.symm), hAu] at hs2
      by_cases h4 : setDelete (toLowerStr rawA1) subA.addresses = []
      · rw [if_pos h4] at hs2
        exact Option.noConfusion hs2
      · rw [if_neg h4] at hs2
        injection hs2 with h6
        rw [← h6] at hmem2
        exact not_mem_setDelete hmem2
  · intro hAllP
    rw [hgfin]
    have hnone : ∀ e, ¬ entryHas (mapGet (toLowerStr rawA1)
        (removeSubscription B (unlinkOldDevices B [rawA1] P st)).addressToDevices) e := by
      intro e hE
      obtain ⟨sube2, hs2, hmem2⟩ := (hinvR.inverse (toLowerStr rawA1) e).mp hE
      by_cases heB : e = B
      · rw [removeSubscription_subs_get, if_pos heB] at hs2
        exact Option.noConfusion hs2
      · rw [removeSubscription_subs_get, if_neg heB, husubs e] at hs2
        by_cases hed : e ∈ devs0
        · rw [if_pos hed] at hs2
          have hmemg : e ∈ getDevicesForAddress (toLowerStr rawA1) st := by
            unfold getDevicesForAddress
            rw [hdevs0]
            exact hed
          obtain ⟨sube, hse, htoke⟩ := hAllP e hmemg heB
          rw [stripSub_of_matches heB hse htoke] at hs2
          by_cases h4 : setDelete (toLowerStr rawA1) sube.addresses = []
          · rw [if_pos h4] at hs2
            exact Option.noConfusion hs2
          · rw [if_neg h4] at hs2
            injection hs2 with h6
            rw [← h6] at hmem2
            exact not_mem_setDelete hmem2
        · rw [if_neg hed] at hs2
          obtain ⟨devs2, hd2, hm2⟩ :=
            (hInv.inverse (toLowerStr rawA1) e).mpr ⟨sube2, hs2, hmem2⟩
          rw [hdevs0] at hd2
          injection hd2 with h7
          rw [← h7] at hm2
          exact hed hm2
    have hgetD : (mapGet (toLowerStr rawA1)
        (removeSubscription B (unlinkOldDevices B [rawA1] P st)).addressToDevices).getD [] =
        [] := by
      cases hv : mapGet (toLowerStr rawA1)
          (removeSubscription B (unlinkOldDevices B [rawA1] P st)).addressToDevices with
      | none => rfl
      | some devs2 =>
        have hne2 := hinvR.idxNonempty (toLowerStr rawA1) devs2 hv
        obtain ⟨e, he⟩ := List.exists_mem_of_ne_nil devs2 hne2
        exact absurd ⟨devs2, hv, he⟩ (hnone e)
    rw [hgetD]
    simp [setAdd]

/-- C4 witness: the amended reassignment on the two-device scenario of the
spec, where the lookup indeed returns the new device only and the old
device, whose only address was reassigned, loses its subscription. -/
theorem c4_witness :
    Reachable exStA ∧
    mapGet "devA" exStA.subscriptions =
      some ⟨["a1"], some "p", "t1"⟩ ∧
    "devB" ∈ getDevicesForAddress (toLowerStr "a1")
      (addSubscription "devB" ["a1"] "p" "t4" exStA) ∧
    "devA" ∉ getDevicesForAddress (toLowerStr "a1")
      (addSubscription "devB" ["a1"] "p" "t4" exStA) ∧
    getDevicesForAddress (toLowerStr "a1")
      (addSubscription "devB" ["a1"] "p" "t4" exStA) = ["devB"] := by
  have happ := c4_amended_reassignment exStA exStA_reachable "devA" "devB" "p" "t4" "a1"
    ⟨["a1"], some "p", "t1"⟩ (by decide) (by decide) (by decide) (by decide)
  refine ⟨exStA_reachable, by decide, happ.2.2.1, happ.2.2.2.1, ?_⟩
  apply happ.2.2.2.2
  intro e he hne
  have hg : getDevicesForAddress (toLowerStr "a1") exStA = ["devA"] := by decide
  rw [hg] at he
  have he2 : e = "devA" := by simpa using he
  subst he2
  exact ⟨⟨["a1"], some "p", "t1"⟩, by decide, rfl⟩

theorem bool_eq_of_iff {a b : Bool} (h : a = true ↔ b = true) : a = b := by
  cases a <;> cases b <;> simp_all

/-- C7: for every reachable registry state, saving the snapshot and loading
it into a fresh registry reproduces the same subscription map (exactly) and
an address index identical to the original modulo ordering: the same
entries are present and each entry holds the same devices. -/
theorem c7_round_trip (st : ServiceState) (h : Reachable st) (now : String) :
    (loadFromSaved (saveSubscriptions now st)).subscriptions = st.subscriptions ∧
    (∀ a, (mapGet a (loadFromSaved (saveSubscriptions now st)).addressToDevices).isSome =
      (mapGet a st.addressToDevices).isSome) ∧
    (∀ a e, e ∈ getDevicesForAddress a (loadFromSaved (saveSubscriptions now st)) ↔
      e ∈ getDevicesForAddress a st) := by
  have hInv := inv_reachable h
  have hs := load_save_subs hInv now
  have hidx : (loadFromSaved (saveSubscriptions now st)).addressToDevices =
      rebuildIdx st.subscriptions [] := by
    have h0 : (loadFromSaved (saveSubscriptions now st)).addressToDevices =
        rebuildIdx (loadFromSaved (saveSubscriptions now st)).subscriptions [] := rfl
    rw [h0, hs]
  have horig : ∀ a, ((mapGet a st.addressToDevices).isSome = true ↔
      ∃ p, p ∈ st.subscriptions ∧ a ∈ p.2.addresses) := by
    intro a
    constructor
    · intro hsm
      obtain ⟨devs, hdevs⟩ := Option.isSome_iff_exists.mp hsm
      obtain ⟨e, he⟩ := List.exists_mem_of_ne_nil devs (hInv.idxNonempty a devs hdevs)
      obtain ⟨sub, hsub, hmem⟩ := (hInv.inverse a e).mp ⟨devs, hdevs, he⟩
      exact ⟨(e, sub), mem_of_mapGet_eq_some hsub, hmem⟩
    · rintro ⟨p, hp, hmem⟩
      have hget : mapGet p.1 st.subscriptions = some p.2 :=
        mapGet_eq_some_of_mem hInv.subsKeysNodup hp
      obtain ⟨devs, hdevs, _⟩ := (hInv.inverse a p.1).mpr ⟨p.2, hget, hmem⟩
      rw [hdevs]
      rfl
  refine ⟨hs, ?_, ?_⟩
  · intro a
    rw [hidx]
    apply bool_eq_of_iff
    rw [rebuildIdx_isSome st.subscriptions [] a, horig a]
    simp [mapGet]
  · intro a e
    unfold getDevicesForAddress
    rw [hidx, mem_getD_iff_entryHas, mem_getD_iff_entryHas,
      rebuildIdx_entryHas st.subscriptions [] a e]
    constructor
    · rintro (habs | ⟨sub, hmem, hmem2⟩)
      · simp [mapGet, entryHas_none] at habs
      · exact (hInv.inverse a e).mpr
          ⟨sub, mapGet_eq_some_of_mem hInv.subsKeysNodup hmem, hmem2⟩
    · intro hE
      obtain ⟨sub, hsub, hmem⟩ := (hInv.inverse a e).mp hE
      exact Or.inr ⟨sub, mem_of_mapGet_eq_some hsub, hmem⟩

/-- C7 witness: the round trip on a concrete state. -/
theorem c7_witness : Reachable exStA ∧
    (loadFromSaved (saveSubscriptions "n" exStA)).subscriptions = exStA.subscriptions :=
  ⟨exStA_reachable, (c7_round_trip exStA exStA_reachable "n").1⟩

/-- C8: the client never schedules more reconnect attempts than the
configured maximum between successful opens; with a 2-attempt maximum the
failed-connection cycle (close, timer fires, error, twice, then a third
close) schedules attempts 1 and 2 only, the third close logs the terminal
failure and schedules nothing, leaving the client permanently disconnected
under any further transport events; a successful open resets the attempt
counter and clears the in-flight flag. -/
theorem c8_reconnect_budget :
    (∀ (maxAttempts : Nat) (s : ClientState) (trace : List ClientEvent),
      ClientEvent.eopen ∉ trace → s.reconnectAttempts = 0 →
      (runClient maxAttempts s trace).2 ≤ maxAttempts) ∧
    runClient 2 ⟨true, 0, false, false, false⟩
        [ClientEvent.eclose, ClientEvent.etimer, ClientEvent.eerror, ClientEvent.eclose,
          ClientEvent.etimer, ClientEvent.eerror, ClientEvent.eclose] =
      (⟨false, 2, false, false, true⟩, 2) ∧
    (∀ trace, ClientEvent.eopen ∉ trace →
      (runClient 2 ⟨false, 2, false, false, true⟩ trace).2 = 0 ∧
      (runClient 2 ⟨false, 2, false, false, true⟩ trace).1.wsPresent = false) ∧
    (∀ (maxAttempts : Nat) (s : ClientState),
      (clientStep maxAttempts s ClientEvent.eopen).1.reconnectAttempts = 0 ∧
      (clientStep maxAttempts s ClientEvent.eopen).1.isReconnecting = false) := by
  refine ⟨?_, by decide, ?_, ?_⟩
  · intro maxAttempts s trace hopen h0
    have hle := runClient_count_le maxAttempts trace s hopen
    rw [h0] at hle
    simpa using hle
  · intro trace hopen
    exact runClient_terminal 2 trace ⟨false, 2, false, false, true⟩ hopen (by decide) rfl rfl
  · intro maxAttempts s
    exact ⟨rfl, rfl⟩

/-- C8 witness: the budget bound applied to a concrete trace. -/
theorem c8_witness :
    ClientEvent.eopen ∉ [ClientEvent.eclose, ClientEvent.eclose] ∧
    (runClient 3 ⟨true, 0, false, false, false⟩
      [ClientEvent.eclose, ClientEvent.eclose]).2 ≤ 3 := by
  refine ⟨by decide, ?_⟩
  exact c8_reconnect_budget.1 3 ⟨true, 0, false, false, false⟩
    [ClientEvent.eclose, ClientEvent.eclose] (by decide) rfl

/-- C10 witness: the frame property instantiated on a concrete state. -/
theorem c10_witness :
    ("dev2" : String) ≠ "dev1" ∧
    mapGet "dev2" (removeSubscription "dev1" exSt1).subscriptions =
      mapGet "dev2" exSt1.subscriptions ∧
    removeSubscription "dev1" (removeSubscription "dev1" exSt1) =
      removeSubscription "dev1" exSt1 :=
  ⟨by decide, (c10_remove_frame exSt1 "dev1").1 "dev2" (by decide),
    (c10_remove_frame exSt1 "dev1").2.2.2⟩

end Liberdus
